import Mathlib

/-!
# The JerryScript driver (`src/main.c`)

A shallow embedding of the top-level driver: `parser_run`, `jerry_run`,
`read_sources` and the host `main`.  The driver is straight-line glue around
components whose bodies live in other translation units (lexer, serializer,
parser, deserializer, optimizer, interpreter, memory manager, libc).  Every
call the driver makes to one of them is recorded, with its arguments, in a
trace; what such a call returns, and whether it returns at all, is supplied by
an environment `Components` that is a function of the calls made so far.
-/

namespace Jerry

/-! ## Data model -/

/-- One numeric literal value (`ecma_number_t`), kept as its bit pattern. -/
abbrev ecma_number_t := Nat

/-- The pointer `const OPCODE *` handed from the deserializer to the optimizer
and the interpreter; only its identity matters to the driver. -/
abbrev OpcodesPtr := Nat

/-- The bound `MAX_STRINGS` of `main.c` on the driver's array `strings`. -/
def MAX_STRINGS : Nat := 100

/-- The bound `MAX_NUMS` of `main.c` on the driver's array `nums`. -/
def MAX_NUMS : Nat := 25

/-- Process termination statuses: the three codes `main.c` passes to
`jerry_exit`, the literal-limit failure of the lexer, a failed `JERRY_ASSERT`,
and any other status a component may end the process with. -/
inductive jerry_status_t where
  | ERR_IO
  | ERR_MEMORY
  | ERR_NO_FILES
  | LiteralLimitExceeded
  | ERR_ASSERT
  | ERR_OTHER (code : Nat)
  deriving DecidableEq, Repr

/-- A literal occurrence found by the lexer. -/
inductive Literal where
  | str (s : List Nat)
  | num (n : ecma_number_t)
  deriving DecidableEq, Repr

/-- The lexer's two literal tables. -/
structure LiteralTables where
  strings : List (List Nat)
  nums : List ecma_number_t
  deriving DecidableEq, Repr

/-- One call from the driver into another translation unit, with the arguments
the driver passes (for an out-parameter: what the callee stored in it). -/
inductive Call where
  | mem_init
  | serializer_init (is_show_opcodes : Bool)
  | lexer_init (script_source : List Nat) (script_source_size : Nat) (is_show_opcodes : Bool)
  | lexer_run_first_pass
  | lexer_get_strings (strings : List (List Nat))
  | lexer_get_nums (nums : List ecma_number_t)
  | lexer_adjust_num_ids
  | serializer_dump_strings (strings : List (List Nat)) (strings_num : Nat)
  | serializer_dump_nums (nums : List ecma_number_t) (nums_count offset strings_num : Nat)
  | parser_init
  | parser_parse_program
  | lexer_free
  | deserialize_bytecode
  | optimizer_run_passes (opcodes : OpcodesPtr)
  | serializer_print_opcodes
  | init_int (opcodes : OpcodesPtr)
  | run_int
  | serializer_free
  | mem_finalize (is_show_mem_stats : Bool)
  | jrt_set_mem_limits (data_limit stack_limit : Nat)
  | printf (format : String)
  | fopen (name : String)
  | fseek (name : String)
  | ftell (name : String)
  | rewind (name : String)
  | fread (name : String) (count : Nat)
  | fclose (name : String)
  | jerry_exit (code : jerry_status_t)
  deriving DecidableEq, Repr

/-- What the file layer answers for one file name. -/
structure File where
  /-- whether `__fopen` returns a non-NULL handle -/
  opens : Bool
  /-- the result of `__fseek (file, 0, __SEEK_END)` -/
  fseek_status : Int
  /-- the result of `__ftell` (a `long`) -/
  ftell : Int
  /-- the bytes `__fread` can deliver from the start of the file -/
  content : List Nat

/-- The environment of one process run: everything the driver obtains from
other translation units and from the build configuration. -/
structure Components where
  /-- built with `__TARGET_HOST_x64` -/
  TARGET_HOST_x64 : Bool
  /-- the constant `JERRY_SOURCE_BUFFER_SIZE`, the size of `source_buffer` -/
  JERRY_SOURCE_BUFFER_SIZE : Nat
  /-- the sum `MEM_HEAP_AREA_SIZE + CONFIG_MEM_DATA_LIMIT_MINUS_HEAP_SIZE` -/
  data_limit : Nat
  /-- the constant `CONFIG_MEM_STACK_LIMIT` -/
  stack_limit : Nat
  /-- the literal occurrences the lexer's tokenization finds in a source, in
  source order -/
  scan : List Nat → Nat → List Literal
  /-- whether a component call ends the process instead of returning: the
  argument is the history of calls, the call in question last -/
  stops : List Call → Option jerry_status_t
  /-- the value `serializer_dump_strings` returns (a `uint16_t`) -/
  dump_strings_offset : List Call → Nat
  /-- the pointer `deserialize_bytecode` returns -/
  bytecode : List Call → OpcodesPtr
  /-- the boolean `run_int` returns -/
  run_result : List Call → Bool
  /-- the file layer -/
  files : String → File

/-! ## Runs: a result, or a terminated process, together with the call trace -/

/-- A driver computation: from the calls made so far to either a returned
value or the status the process ended with, and the calls made by then. -/
def Run (α : Type) : Type := List Call → Except jerry_status_t α × List Call

/-- Sequencing: the continuation runs only when the first part returned. -/
def Run.bind {α β : Type} (m : Run α) (f : α → Run β) : Run β := fun tr =>
  match m tr with
  | (.ok a, tr1) => f a tr1
  | (.error e, tr1) => (.error e, tr1)

instance : Monad Run where
  pure a := fun tr => (.ok a, tr)
  bind := Run.bind

/-- A call into a component: recorded, then it either returns or ends the
process, as the environment decides. -/
def call (K : Components) (c : Call) : Run Unit := fun tr =>
  match K.stops (tr ++ [c]) with
  | some e => (.error e, tr ++ [c])
  | none => (.ok (), tr ++ [c])

/-- A call into libc: recorded, always returns. -/
def emit (c : Call) : Run Unit := fun tr => (.ok (), tr ++ [c])

/-- The process ends inside the current component call. -/
def fail {α : Type} (code : jerry_status_t) : Run α := fun tr => (.error code, tr)

/-- The call `jerry_exit (code)`: it never returns. -/
def jerry_exit {α : Type} (code : jerry_status_t) : Run α := fun tr =>
  (.error code, tr ++ [.jerry_exit code])

/-! ## The lexer's literal discovery -/

/-- Modelled from the spec: one step of the lexer's pass 1, whose body is not
part of `main.c`. A literal occurrence enters its table unless its value is
already there, so ids follow first-discovery order. -/
def add_literal (t : LiteralTables) : Literal → LiteralTables
  | .str s => if s ∈ t.strings then t else { t with strings := t.strings ++ [s] }
  | .num n => if n ∈ t.nums then t else { t with nums := t.nums ++ [n] }

/-- Modelled from the spec: the body of the lexer's pass 1 is not part of
`main.c`. Pass 1 retains the deduplicated literal values in first-seen order. -/
def discover (lits : List Literal) : LiteralTables :=
  lits.foldl add_literal { strings := [], nums := [] }

/-- Modelled from the spec: `lexer_run_first_pass` is declared in `lexer.h`
and its body is absent. Discovery fails with LiteralLimitExceeded if the
distinct string or number count exceeds the configured maximum; otherwise the
tables stay in the lexer for the accessors below. -/
def lexer_run_first_pass (K : Components) (script_source : List Nat)
    (script_source_size : Nat) : Run LiteralTables := do
  call K .lexer_run_first_pass
  let t := discover (K.scan script_source script_source_size)
  if MAX_STRINGS < t.strings.length ∨ MAX_NUMS < t.nums.length then
    fail .LiteralLimitExceeded
  else
    pure t

/-- Modelled from the spec: `lexer_get_strings (strings)` is absent; it stores
the string table in the caller's array and returns the count as `uint8_t`. -/
def lexer_get_strings (K : Components) (t : LiteralTables) : Run (List (List Nat) × Nat) := do
  call K (.lexer_get_strings t.strings)
  pure (t.strings, t.strings.length % 256)

/-- Modelled from the spec: `lexer_get_nums (nums)` is absent; it stores the
number table in the caller's array and returns the count as `uint8_t`. -/
def lexer_get_nums (K : Components) (t : LiteralTables) : Run (List ecma_number_t × Nat) := do
  call K (.lexer_get_nums t.nums)
  pure (t.nums, t.nums.length % 256)

/-- The call `serializer_dump_strings (strings, strings_num)` with its result. -/
def serializer_dump_strings (K : Components) (strings : List (List Nat))
    (strings_num : Nat) : Run Nat := fun tr =>
  match call K (.serializer_dump_strings strings strings_num) tr with
  | (.ok _, tr1) => (.ok (K.dump_strings_offset tr1 % 65536), tr1)
  | (.error e, tr1) => (.error e, tr1)

/-- The call `deserialize_bytecode ()` with its result. -/
def deserialize_bytecode (K : Components) : Run OpcodesPtr := fun tr =>
  match call K .deserialize_bytecode tr with
  | (.ok _, tr1) => (.ok (K.bytecode tr1), tr1)
  | (.error e, tr1) => (.error e, tr1)

/-- The call `run_int ()` with its result. -/
def run_int (K : Components) : Run Bool := fun tr =>
  match call K .run_int tr with
  | (.ok _, tr1) => (.ok (K.run_result tr1), tr1)
  | (.error e, tr1) => (.error e, tr1)

/-! ## `parser_run` and `jerry_run` -/

/-- The function `parser_run` of `main.c`. -/
def parser_run (K : Components) (script_source : List Nat) (script_source_size : Nat)
    (is_show_opcodes : Bool) : Run OpcodesPtr := do
  call K (.lexer_init script_source script_source_size is_show_opcodes)
  let t ← lexer_run_first_pass K script_source script_source_size
  let (strings, strings_num) ← lexer_get_strings K t
  let (nums, nums_count) ← lexer_get_nums K t
  call K .lexer_adjust_num_ids
  let offset ← serializer_dump_strings K strings strings_num
  call K (.serializer_dump_nums nums nums_count offset strings_num)
  call K .parser_init
  call K .parser_parse_program
  call K .lexer_free
  let opcodes ← deserialize_bytecode K
  call K (.optimizer_run_passes opcodes)
  if K.TARGET_HOST_x64 then
    call K .serializer_print_opcodes
  pure opcodes

/-- The function `jerry_run` of `main.c`. -/
def jerry_run (K : Components) (script_source : List Nat) (script_source_size : Nat)
    (is_parse_only is_show_opcodes is_show_mem_stats : Bool) : Run Bool := do
  call K .mem_init
  call K (.serializer_init is_show_opcodes)
  let opcodes ← parser_run K script_source script_source_size is_show_opcodes
  if is_parse_only then
    pure true
  else do
    call K (.init_int opcodes)
    let is_success ← run_int K
    call K .serializer_free
    call K (.mem_finalize is_show_mem_stats)
    pure is_success

/-! ## The host build: `read_sources` and `main` -/

/-- The static array `source_buffer` together with the local pointer
`source_buffer_tail`, kept as its offset from the start of the array.  The
comparison of line 139 is between two pointers formed from this one array, so
it is made on offsets; a `long` length is below 2^63 and the array lies in the
lower half of the address space, so the sum on its left does not wrap in 64
bits and the offsets are plain natural numbers. -/
structure SourceBuffer where
  source_buffer : List Nat
  source_buffer_tail : Nat
  deriving DecidableEq, Repr

/-- What `__fread (dst, 1, count, file)` stores at the start of `dst`: the
bytes delivered, over what was there; the rest of `dst` is untouched. -/
def fread_into (dst : List Nat) (data : List Nat) : List Nat :=
  data ++ dst.drop data.length

/-- One iteration of the `for` loop of `read_sources`. -/
def read_source_file (K : Components) (st : SourceBuffer) (script_file_name : String) :
    Run SourceBuffer := do
  let file := K.files script_file_name
  emit (.fopen script_file_name)
  if file.opens = false then
    jerry_exit jerry_status_t.ERR_IO
  else do
    emit (.fseek script_file_name)
    let fseek_status := file.fseek_status
    if fseek_status ≠ 0 then
      jerry_exit jerry_status_t.ERR_IO
    else do
      emit (.ftell script_file_name)
      let script_len := file.ftell
      if script_len < 0 then
        jerry_exit jerry_status_t.ERR_IO
      else do
        emit (.rewind script_file_name)
        let current_source_size := script_len.toNat
        if st.source_buffer_tail + current_source_size ≥ K.JERRY_SOURCE_BUFFER_SIZE then
          jerry_exit jerry_status_t.ERR_MEMORY
        else do
          emit (.fread script_file_name current_source_size)
          let data := file.content.take current_source_size
          let bytes_read := data.length
          let source_buffer := fread_into st.source_buffer data
          if bytes_read < current_source_size then
            jerry_exit jerry_status_t.ERR_IO
          else do
            emit (.fclose script_file_name)
            pure { source_buffer := source_buffer
                   source_buffer_tail := st.source_buffer_tail + current_source_size }

/-- The state on entry to the loop of `read_sources`: `source_buffer` has static
storage, so it is zero-filled, and `source_buffer_tail = source_buffer`. -/
def source_buffer_init (K : Components) : SourceBuffer :=
  { source_buffer := List.replicate K.JERRY_SOURCE_BUFFER_SIZE 0, source_buffer_tail := 0 }

/-- The `for` loop of `read_sources`, over the file names in order. -/
def read_sources_loop (K : Components) : List String → SourceBuffer → Run SourceBuffer
  | [], st => pure st
  | script_file_name :: rest, st => do
    let st1 ← read_source_file K st script_file_name
    read_sources_loop K rest st1

/-- The function `read_sources` of `main.c`: the returned pair is the buffer the result
pointer designates and `*out_source_size_p`. -/
def read_sources (K : Components) (script_file_names : List String) : Run (List Nat × Nat) := do
  let st ← read_sources_loop K script_file_names (source_buffer_init K)
  let source_size := st.source_buffer_tail
  if source_size < K.JERRY_SOURCE_BUFFER_SIZE then
    pure (st.source_buffer, source_size)
  else
    fail jerry_status_t.ERR_ASSERT

/-- The locals of `main` that the argument loop updates. -/
structure Args where
  parse_only : Bool
  show_opcodes : Bool
  print_mem_stats : Bool
  file_names : List String
  deriving DecidableEq, Repr

/-- The body of the argument loop of `main` for one `argv[i]`. -/
def main_arg (a : Args) (arg : String) : Run Args := do
  (if arg = "-v" then do
    emit (.printf "Build date: \t%s\n")
    emit (.printf "Commit hash:\t%s\n")
    emit (.printf "Branch name:\t%s\n")
    emit (.printf "\n")
  else
    pure ())
  if arg = "--mem-stats" then
    pure { a with print_mem_stats := true }
  else if arg = "--parse-only" then
    pure { a with parse_only := true }
  else if arg = "--show-opcodes" then
    pure { a with show_opcodes := true }
  else
    pure { a with file_names := a.file_names ++ [arg] }

/-- The argument loop of `main`, over `argv[1]`, ..., `argv[argc - 1]`. -/
def main_args : List String → Args → Run Args
  | [], a => pure a
  | arg :: rest, a => do
    let a1 ← main_arg a arg
    main_args rest a1

/-- The locals of `main` before the argument loop: the three flags `false`,
`files_counter = 0`. -/
def main_locals : Args :=
  { parse_only := false, show_opcodes := false, print_mem_stats := false, file_names := [] }

/-- The host `main` of `main.c`; `argv` holds `argc` strings, the program
name first.  The result is the value `main` returns. -/
def main (K : Components) (argv : List String) : Run Int := do
  call K (.jrt_set_mem_limits K.data_limit K.stack_limit)
  let a ← main_args (argv.drop 1) main_locals
  let files_counter := a.file_names.length
  if files_counter = 0 then
    jerry_exit jerry_status_t.ERR_NO_FILES
  else do
    let (source_p, source_size) ← read_sources K a.file_names
    let is_success ←
      jerry_run K source_p source_size a.parse_only a.show_opcodes a.print_mem_stats
    pure (if is_success then 0 else 1)

/-- A file that opens, seeks and reports its true length. -/
def plain_file (content : List Nat) : File :=
  { opens := true, fseek_status := 0, ftell := content.length, content := content }

/-- A file that cannot be opened. -/
def missing_file : File :=
  { opens := false, fseek_status := 0, ftell := 0, content := [] }

/-! ## Reasoning about runs -/

/-- The run `m`, started after the calls `tr`, returns `a`, the calls made by
then being `tr1`. -/
def Returns {α : Type} (m : Run α) (tr : List Call) (a : α) (tr1 : List Call) : Prop :=
  m tr = (.ok a, tr1)

/-- The run `m`, started after the calls `tr`, ends the process with status
`e`, the calls made by then being `tr1`. -/
def Exits {α : Type} (m : Run α) (tr : List Call) (e : jerry_status_t) (tr1 : List Call) : Prop :=
  m tr = (.error e, tr1)

/-- Whatever the run `m` does after the calls `tr`, it only adds calls, and
every call it adds satisfies `P`. -/
def Adds {α : Type} (P : Call → Prop) (m : Run α) (tr : List Call) : Prop :=
  ∃ new, (m tr).2 = tr ++ new ∧ ∀ c ∈ new, P c

/-- Whatever the run `m` does after the calls `tr`, the calls it adds are an
initial segment of the list `L`. -/
def Makes {α : Type} (m : Run α) (tr : List Call) (L : List Call) : Prop :=
  ∃ new, (m tr).2 = tr ++ new ∧ new <+: L

/-- The calls of the driver into the pipeline components (everything but libc,
`jrt_set_mem_limits` and `jerry_exit`). -/
def Call.is_pipeline : Call → Bool
  | .jrt_set_mem_limits _ _ => false
  | .printf _ => false
  | .fopen _ => false
  | .fseek _ => false
  | .ftell _ => false
  | .rewind _ => false
  | .fread _ _ => false
  | .fclose _ => false
  | .jerry_exit _ => false
  | _ => true

/-- The calls into the interpreter. -/
def Call.is_interpreter : Call → Bool
  | .init_int _ => true
  | .run_int => true
  | _ => false

/-- The calls `parser_run` makes when all of them return: `t` the tables of
pass 1, `offset` the result of `serializer_dump_strings`, `opcodes` the result
of `deserialize_bytecode`. -/
def parser_calls (host : Bool) (script_source : List Nat) (script_source_size : Nat)
    (is_show_opcodes : Bool) (t : LiteralTables) (offset : Nat) (opcodes : OpcodesPtr) :
    List Call :=
  [ .lexer_init script_source script_source_size is_show_opcodes,
    .lexer_run_first_pass,
    .lexer_get_strings t.strings,
    .lexer_get_nums t.nums,
    .lexer_adjust_num_ids,
    .serializer_dump_strings t.strings (t.strings.length % 256),
    .serializer_dump_nums t.nums (t.nums.length % 256) offset (t.strings.length % 256),
    .parser_init,
    .parser_parse_program,
    .lexer_free,
    .deserialize_bytecode,
    .optimizer_run_passes opcodes ] ++
  (if host then [.serializer_print_opcodes] else [])

/-- The size `read_sources` takes for a file: `(size_t) script_len`. -/
def file_size (K : Components) (name : String) : Nat := (K.files name).ftell.toNat

/-- The libc calls one loop iteration of `read_sources` makes for a file that
passes every check. -/
def file_calls (K : Components) (name : String) : List Call :=
  [.fopen name, .fseek name, .ftell name, .rewind name, .fread name (file_size K name),
    .fclose name]

/-- The run `m` returns from every history. -/
def Total {α : Type} (m : Run α) : Prop := ∀ tr, ∃ a tr1, Returns m tr a tr1

/-! ## Concrete environments -/

/-- An environment in which every component returns, with fixed results. -/
def quiet (host : Bool) (cap : Nat) (lits : List Literal) (ok : Bool)
    (files : String → File) : Components where
  TARGET_HOST_x64 := host
  JERRY_SOURCE_BUFFER_SIZE := cap
  data_limit := 0
  stack_limit := 0
  scan := fun _ _ => lits
  stops := fun _ => none
  dump_strings_offset := fun _ => 7
  bytecode := fun _ => 42
  run_result := fun _ => ok
  files := files

/-- The file layer of the examples: `a` holds two bytes, `b` one byte, `big`
eight bytes, `short` reports four bytes and delivers two; no other file opens. -/
def example_files : String → File := fun name =>
  if name = "a" then plain_file [49, 43]
  else if name = "b" then plain_file [50]
  else if name = "big" then plain_file [1, 2, 3, 4, 5, 6, 7, 8]
  else if name = "short" then { plain_file [1, 2] with ftell := 4 }
  else missing_file


/-! ## Lemmas on runs -/

theorem returns_bind {α β : Type} (m : Run α) (f : α → Run β) (tr : List Call) (b : β)
    (tr2 : List Call) :
    Returns (m >>= f) tr b tr2 ↔ ∃ a tr1, Returns m tr a tr1 ∧ Returns (f a) tr1 b tr2 := by
  show Returns (Run.bind m f) tr b tr2 ↔ _
  unfold Returns Run.bind
  constructor
  · intro h
    split at h
    · next a tr1 hm => exact ⟨a, tr1, hm, h⟩
    · next e tr1 hm => simp at h
  · rintro ⟨a, tr1, hm, hf⟩
    rw [hm]; exact hf

theorem returns_pure {α : Type} (a b : α) (tr tr1 : List Call) :
    Returns (pure a : Run α) tr b tr1 ↔ b = a ∧ tr1 = tr := by
  show ((Except.ok a, tr) : Except jerry_status_t α × List Call) = (.ok b, tr1) ↔ _
  simp [eq_comm]

theorem returns_call (K : Components) (c : Call) (tr tr1 : List Call) (u : Unit) :
    Returns (call K c) tr u tr1 ↔ K.stops (tr ++ [c]) = none ∧ tr1 = tr ++ [c] := by
  unfold Returns call
  cases h : K.stops (tr ++ [c]) with
  | none => simp [eq_comm]
  | some e => simp

theorem returns_emit (c : Call) (tr tr1 : List Call) (u : Unit) :
    Returns (emit c) tr u tr1 ↔ tr1 = tr ++ [c] := by
  simp [Returns, emit, eq_comm]

theorem returns_fail {α : Type} (e : jerry_status_t) (tr tr1 : List Call) (a : α) :
    Returns (fail e : Run α) tr a tr1 ↔ False := by
  simp [Returns, fail]

theorem returns_jerry_exit {α : Type} (e : jerry_status_t) (tr tr1 : List Call) (a : α) :
    Returns (jerry_exit e : Run α) tr a tr1 ↔ False := by
  simp [Returns, jerry_exit]

theorem returns_lexer_run_first_pass (K : Components) (src : List Nat) (n : Nat)
    (tr tr1 : List Call) (t : LiteralTables) :
    Returns (lexer_run_first_pass K src n) tr t tr1 ↔
      K.stops (tr ++ [.lexer_run_first_pass]) = none ∧ tr1 = tr ++ [.lexer_run_first_pass] ∧
      t = discover (K.scan src n) ∧ t.strings.length ≤ MAX_STRINGS ∧ t.nums.length ≤ MAX_NUMS := by
  unfold lexer_run_first_pass
  simp only [returns_bind, returns_call]
  constructor
  · rintro ⟨u, tr2, ⟨h1, rfl⟩, h⟩
    split_ifs at h with hc
    · exact absurd h (by simp [returns_fail])
    · rw [returns_pure] at h
      obtain ⟨rfl, rfl⟩ := h
      push_neg at hc
      exact ⟨h1, rfl, rfl, hc.1, hc.2⟩
  · rintro ⟨h1, rfl, rfl, h2, h3⟩
    refine ⟨(), _, ⟨h1, rfl⟩, ?_⟩
    rw [if_neg (by push_neg; exact ⟨h2, h3⟩), returns_pure]
    exact ⟨rfl, rfl⟩

theorem returns_lexer_get_strings (K : Components) (t : LiteralTables) (tr tr1 : List Call)
    (r : List (List Nat) × Nat) :
    Returns (lexer_get_strings K t) tr r tr1 ↔
      K.stops (tr ++ [.lexer_get_strings t.strings]) = none ∧
      tr1 = tr ++ [.lexer_get_strings t.strings] ∧ r = (t.strings, t.strings.length % 256) := by
  unfold lexer_get_strings
  simp only [returns_bind, returns_call, returns_pure]
  constructor
  · rintro ⟨_, _, ⟨h1, rfl⟩, rfl, rfl⟩
    exact ⟨h1, rfl, rfl⟩
  · rintro ⟨h1, rfl, rfl⟩
    exact ⟨(), _, ⟨h1, rfl⟩, rfl, rfl⟩

theorem returns_lexer_get_nums (K : Components) (t : LiteralTables) (tr tr1 : List Call)
    (r : List ecma_number_t × Nat) :
    Returns (lexer_get_nums K t) tr r tr1 ↔
      K.stops (tr ++ [.lexer_get_nums t.nums]) = none ∧
      tr1 = tr ++ [.lexer_get_nums t.nums] ∧ r = (t.nums, t.nums.length % 256) := by
  unfold lexer_get_nums
  simp only [returns_bind, returns_call, returns_pure]
  constructor
  · rintro ⟨_, _, ⟨h1, rfl⟩, rfl, rfl⟩
    exact ⟨h1, rfl, rfl⟩
  · rintro ⟨h1, rfl, rfl⟩
    exact ⟨(), _, ⟨h1, rfl⟩, rfl, rfl⟩

theorem returns_serializer_dump_strings (K : Components) (ss : List (List Nat)) (k : Nat)
    (tr tr1 : List Call) (off : Nat) :
    Returns (serializer_dump_strings K ss k) tr off tr1 ↔
      K.stops (tr ++ [.serializer_dump_strings ss k]) = none ∧
      tr1 = tr ++ [.serializer_dump_strings ss k] ∧ off = K.dump_strings_offset tr1 % 65536 := by
  unfold Returns serializer_dump_strings call
  cases h : K.stops (tr ++ [.serializer_dump_strings ss k]) with
  | none =>
    simp only [Prod.mk.injEq, Except.ok.injEq, true_and]
    constructor
    · rintro ⟨rfl, rfl⟩; exact ⟨rfl, rfl⟩
    · rintro ⟨rfl, rfl⟩; exact ⟨rfl, rfl⟩
  | some e => simp

theorem returns_deserialize_bytecode (K : Components) (tr tr1 : List Call) (p : OpcodesPtr) :
    Returns (deserialize_bytecode K) tr p tr1 ↔
      K.stops (tr ++ [.deserialize_bytecode]) = none ∧
      tr1 = tr ++ [.deserialize_bytecode] ∧ p = K.bytecode tr1 := by
  unfold Returns deserialize_bytecode call
  cases h : K.stops (tr ++ [.deserialize_bytecode]) with
  | none =>
    simp only [Prod.mk.injEq, Except.ok.injEq, true_and]
    constructor
    · rintro ⟨rfl, rfl⟩; exact ⟨rfl, rfl⟩
    · rintro ⟨rfl, rfl⟩; exact ⟨rfl, rfl⟩
  | some e => simp

theorem returns_run_int (K : Components) (tr tr1 : List Call) (b : Bool) :
    Returns (run_int K) tr b tr1 ↔
      K.stops (tr ++ [.run_int]) = none ∧ tr1 = tr ++ [.run_int] ∧ b = K.run_result tr1 := by
  unfold Returns run_int call
  cases h : K.stops (tr ++ [.run_int]) with
  | none =>
    simp only [Prod.mk.injEq, Except.ok.injEq, true_and]
    constructor
    · rintro ⟨rfl, rfl⟩; exact ⟨rfl, rfl⟩
    · rintro ⟨rfl, rfl⟩; exact ⟨rfl, rfl⟩
  | some e => simp

/-- A call of `parser_run` that returns has made exactly the calls of
`parser_calls`, in that order, after a pass 1 within the literal limits. -/
theorem parser_run_returns (K : Components) (src : List Nat) (n : Nat) (so : Bool)
    (tr tr1 : List Call) (p : OpcodesPtr) (h : Returns (parser_run K src n so) tr p tr1) :
    (discover (K.scan src n)).strings.length ≤ MAX_STRINGS ∧
    (discover (K.scan src n)).nums.length ≤ MAX_NUMS ∧
    ∃ offset, tr1 = tr ++
      parser_calls K.TARGET_HOST_x64 src n so (discover (K.scan src n)) offset p := by
  unfold parser_run at h
  simp only [returns_bind, returns_call, returns_lexer_run_first_pass, returns_lexer_get_strings,
    returns_lexer_get_nums, returns_serializer_dump_strings, returns_deserialize_bytecode,
    returns_pure] at h
  obtain ⟨_, _, ⟨-, rfl⟩, _, _, ⟨-, rfl, rfl, hs, hn⟩, _, _, ⟨-, rfl, rfl⟩, _, _, ⟨-, rfl, rfl⟩,
    _, _, ⟨-, rfl⟩, off, _, ⟨-, rfl, -⟩, _, _, ⟨-, rfl⟩, _, _, ⟨-, rfl⟩, _, _, ⟨-, rfl⟩,
    _, _, ⟨-, rfl⟩, q, _, ⟨-, rfl, -⟩, _, _, ⟨-, rfl⟩, h⟩ := h
  refine ⟨hs, hn, off, ?_⟩
  cases hh : K.TARGET_HOST_x64
  · simp only [hh, Bool.false_eq_true, if_false, returns_bind, returns_pure] at h
    obtain ⟨_, _, ⟨-, rfl⟩, rfl, rfl⟩ := h
    simp [parser_calls]
  · simp only [hh, if_true, returns_bind, returns_call, returns_pure] at h
    obtain ⟨_, _, ⟨-, rfl⟩, rfl, rfl⟩ := h
    simp [parser_calls]

theorem total_bind {α β : Type} {m : Run α} {f : α → Run β} (hm : Total m)
    (hf : ∀ a, Total (f a)) : Total (m >>= f) := by
  intro tr
  obtain ⟨a, tr1, h1⟩ := hm tr
  obtain ⟨b, tr2, h2⟩ := hf a tr1
  exact ⟨b, tr2, (returns_bind m f tr b tr2).2 ⟨a, tr1, h1, h2⟩⟩

theorem total_pure {α : Type} (a : α) : Total (pure a : Run α) :=
  fun tr => ⟨a, tr, rfl⟩

theorem total_emit (c : Call) : Total (emit c) :=
  fun tr => ⟨(), tr ++ [c], rfl⟩

theorem total_call (K : Components) (hK : ∀ h, K.stops h = none) (c : Call) :
    Total (call K c) :=
  fun tr => ⟨(), tr ++ [c], (returns_call K c tr _ ()).2 ⟨hK _, rfl⟩⟩

/-- When no component call ends the process and pass 1 stays within the
literal limits, `parser_run` returns. -/
theorem parser_run_total (K : Components) (src : List Nat) (n : Nat) (so : Bool)
    (hK : ∀ h, K.stops h = none)
    (hs : (discover (K.scan src n)).strings.length ≤ MAX_STRINGS)
    (hn : (discover (K.scan src n)).nums.length ≤ MAX_NUMS) :
    Total (parser_run K src n so) := by
  unfold parser_run
  refine total_bind (total_call K hK _) fun _ => ?_
  refine total_bind (fun tr => ⟨_, _, (returns_lexer_run_first_pass K src n tr _ _).2
    ⟨hK _, rfl, rfl, hs, hn⟩⟩) fun t => ?_
  refine total_bind (fun tr => ⟨_, _, (returns_lexer_get_strings K t tr _ _).2
    ⟨hK _, rfl, rfl⟩⟩) fun ⟨strings, strings_num⟩ => ?_
  refine total_bind (fun tr => ⟨_, _, (returns_lexer_get_nums K t tr _ _).2
    ⟨hK _, rfl, rfl⟩⟩) fun ⟨nums, nums_count⟩ => ?_
  refine total_bind (total_call K hK _) fun _ => ?_
  refine total_bind (fun tr => ⟨_, _, (returns_serializer_dump_strings K _ _ tr _ _).2
    ⟨hK _, rfl, rfl⟩⟩) fun offset => ?_
  refine total_bind (total_call K hK _) fun _ => ?_
  refine total_bind (total_call K hK _) fun _ => ?_
  refine total_bind (total_call K hK _) fun _ => ?_
  refine total_bind (total_call K hK _) fun _ => ?_
  refine total_bind (fun tr => ⟨_, _, (returns_deserialize_bytecode K tr _ _).2
    ⟨hK _, rfl, rfl⟩⟩) fun opcodes => ?_
  refine total_bind (total_call K hK _) fun _ => ?_
  split_ifs
  · exact total_bind (total_call K hK _) fun _ => total_pure _
  · exact total_bind (total_pure _) fun _ => total_pure _

/-- How a call of `jerry_run` returns: after `mem_init`, `serializer_init` and
a returning `parser_run`, either at once with `true` (parse only), or after
`init_int`, `run_int`, `serializer_free` and `mem_finalize`, with the result
of `run_int`. -/
theorem jerry_run_returns (K : Components) (src : List Nat) (n : Nat) (po so sm : Bool)
    (tr tr1 : List Call) (b : Bool) (h : Returns (jerry_run K src n po so sm) tr b tr1) :
    ∃ p tr0, Returns (parser_run K src n so) (tr ++ [.mem_init, .serializer_init so]) p tr0 ∧
      ((po = true ∧ b = true ∧ tr1 = tr0) ∨
       (po = false ∧ tr1 = tr0 ++ [.init_int p, .run_int, .serializer_free, .mem_finalize sm] ∧
          b = K.run_result (tr0 ++ [.init_int p, .run_int]))) := by
  unfold jerry_run at h
  simp only [returns_bind, returns_call] at h
  obtain ⟨_, _, ⟨-, rfl⟩, _, _, ⟨-, rfl⟩, p, tr0, hp, h⟩ := h
  rw [List.append_assoc] at hp
  refine ⟨p, tr0, hp, ?_⟩
  cases po
  · right
    simp only [Bool.false_eq_true, if_false, returns_bind, returns_call, returns_run_int,
      returns_pure] at h
    obtain ⟨_, _, ⟨-, rfl⟩, _, _, ⟨-, rfl, rfl⟩, _, _, ⟨-, rfl⟩, _, _, ⟨-, rfl⟩, rfl, rfl⟩ := h
    simp
  · left
    simp only [if_true, returns_pure] at h
    exact ⟨rfl, h.1, h.2⟩

/-- When no component call ends the process and pass 1 stays within the
literal limits, `jerry_run` returns. -/
theorem jerry_run_total (K : Components) (src : List Nat) (n : Nat) (po so sm : Bool)
    (hK : ∀ h, K.stops h = none)
    (hs : (discover (K.scan src n)).strings.length ≤ MAX_STRINGS)
    (hn : (discover (K.scan src n)).nums.length ≤ MAX_NUMS) :
    Total (jerry_run K src n po so sm) := by
  unfold jerry_run
  refine total_bind (total_call K hK _) fun _ => ?_
  refine total_bind (total_call K hK _) fun _ => ?_
  refine total_bind (parser_run_total K src n so hK hs hn) fun opcodes => ?_
  split_ifs
  · exact total_pure _
  · refine total_bind (total_call K hK _) fun _ => ?_
    refine total_bind (fun tr => ⟨_, _, (returns_run_int K tr _ _).2 ⟨hK _, rfl, rfl⟩⟩)
      fun is_success => ?_
    refine total_bind (total_call K hK _) fun _ => ?_
    exact total_bind (total_call K hK _) fun _ => total_pure _

theorem adds_bind {α β : Type} {P : Call → Prop} {m : Run α} {f : α → Run β} {tr : List Call}
    (hm : Adds P m tr) (hf : ∀ a tr1, Returns m tr a tr1 → Adds P (f a) tr1) :
    Adds P (m >>= f) tr := by
  obtain ⟨new, h2, hP⟩ := hm
  show Adds P (Run.bind m f) tr
  unfold Adds Run.bind
  rcases hmt : m tr with ⟨r, tr1⟩
  rw [hmt] at h2
  simp only at h2
  subst h2
  cases r with
  | error e => exact ⟨new, rfl, hP⟩
  | ok a =>
    obtain ⟨new2, h3, hP2⟩ := hf a _ hmt
    refine ⟨new ++ new2, ?_, ?_⟩
    · simp only [h3, List.append_assoc]
    · intro c hc
      rcases List.mem_append.1 hc with h | h
      · exact hP c h
      · exact hP2 c h

theorem adds_pure {α : Type} (P : Call → Prop) (a : α) (tr : List Call) :
    Adds P (pure a : Run α) tr :=
  ⟨[], by show tr = tr ++ []; simp, by simp⟩

theorem adds_fail {α : Type} (P : Call → Prop) (e : jerry_status_t) (tr : List Call) :
    Adds P (fail e : Run α) tr :=
  ⟨[], by simp [fail], by simp⟩

theorem adds_call {P : Call → Prop} (K : Components) {c : Call} (hc : P c) (tr : List Call) :
    Adds P (call K c) tr := by
  refine ⟨[c], ?_, by simpa using hc⟩
  unfold call
  split <;> rfl

theorem adds_emit {P : Call → Prop} {c : Call} (hc : P c) (tr : List Call) :
    Adds P (emit c) tr :=
  ⟨[c], rfl, by simpa using hc⟩

theorem adds_jerry_exit {α : Type} {P : Call → Prop} {e : jerry_status_t}
    (hc : P (.jerry_exit e)) (tr : List Call) : Adds P (jerry_exit e : Run α) tr :=
  ⟨[.jerry_exit e], rfl, by simpa using hc⟩

theorem adds_mono {α : Type} {P Q : Call → Prop} {m : Run α} {tr : List Call}
    (h : Adds P m tr) (hPQ : ∀ c, P c → Q c) : Adds Q m tr := by
  obtain ⟨new, h1, h2⟩ := h
  exact ⟨new, h1, fun c hc => hPQ c (h2 c hc)⟩

theorem adds_lexer_run_first_pass {P : Call → Prop} (K : Components) (src : List Nat) (n : Nat)
    (hc : P .lexer_run_first_pass) (tr : List Call) :
    Adds P (lexer_run_first_pass K src n) tr := by
  unfold lexer_run_first_pass
  refine adds_bind (adds_call K hc tr) fun _ tr1 _ => ?_
  dsimp only
  split_ifs
  · exact adds_fail P _ tr1
  · exact adds_pure P _ tr1

theorem adds_serializer_dump_strings {P : Call → Prop} (K : Components) (ss : List (List Nat))
    (k : Nat) (hc : P (.serializer_dump_strings ss k)) (tr : List Call) :
    Adds P (serializer_dump_strings K ss k) tr := by
  refine ⟨[.serializer_dump_strings ss k], ?_, by simpa using hc⟩
  unfold serializer_dump_strings call
  cases K.stops (tr ++ [.serializer_dump_strings ss k]) <;> rfl

theorem adds_deserialize_bytecode {P : Call → Prop} (K : Components)
    (hc : P .deserialize_bytecode) (tr : List Call) : Adds P (deserialize_bytecode K) tr := by
  refine ⟨[.deserialize_bytecode], ?_, by simpa using hc⟩
  unfold deserialize_bytecode call
  cases K.stops (tr ++ [.deserialize_bytecode]) <;> rfl

theorem adds_run_int {P : Call → Prop} (K : Components) (hc : P .run_int) (tr : List Call) :
    Adds P (run_int K) tr := by
  refine ⟨[.run_int], ?_, by simpa using hc⟩
  unfold run_int call
  cases K.stops (tr ++ [.run_int]) <;> rfl

/-- Whatever happens, `parser_run` makes no call outside the lexer, the
serializer, the parser, the deserializer and the optimizer; the tables it takes
from the lexer are within the limits of its arrays and are dumped whole. -/
theorem adds_parser_run (K : Components) (src : List Nat) (n : Nat) (so : Bool)
    (tr : List Call) :
    Adds (fun c => c.is_pipeline = true ∧ c.is_interpreter = false ∧ c ≠ .mem_init ∧
        (∀ f, c ≠ .mem_finalize f) ∧
        (∀ ss, c = .lexer_get_strings ss → ss.length ≤ MAX_STRINGS) ∧
        (∀ ns, c = .lexer_get_nums ns → ns.length ≤ MAX_NUMS) ∧
        (∀ ss k, c = .serializer_dump_strings ss k → ss.length ≤ MAX_STRINGS ∧ k = ss.length))
      (parser_run K src n so) tr := by
  unfold parser_run
  refine adds_bind (adds_call K (by simp [Call.is_pipeline, Call.is_interpreter]) _) fun _ _ _ => ?_
  refine adds_bind (adds_lexer_run_first_pass K src n
    (by simp [Call.is_pipeline, Call.is_interpreter]) _) fun t _ ht => ?_
  obtain ⟨-, -, -, hs, hn⟩ := (returns_lexer_run_first_pass K src n _ _ _).1 ht
  have hs256 : t.strings.length % 256 = t.strings.length :=
    Nat.mod_eq_of_lt (lt_of_le_of_lt hs (by decide))
  refine adds_bind (m := lexer_get_strings K t) ?_ fun r _ hr => ?_
  · unfold lexer_get_strings
    exact adds_bind (adds_call K (by simpa [Call.is_pipeline, Call.is_interpreter] using hs) _)
      fun _ _ _ => adds_pure _ _ _
  obtain ⟨-, -, rfl⟩ := (returns_lexer_get_strings K t _ _ _).1 hr
  refine adds_bind (m := lexer_get_nums K t) ?_ fun r _ hr => ?_
  · unfold lexer_get_nums
    exact adds_bind (adds_call K (by simpa [Call.is_pipeline, Call.is_interpreter] using hn) _)
      fun _ _ _ => adds_pure _ _ _
  obtain ⟨-, -, rfl⟩ := (returns_lexer_get_nums K t _ _ _).1 hr
  refine adds_bind (adds_call K (by simp [Call.is_pipeline, Call.is_interpreter]) _) fun _ _ _ => ?_
  refine adds_bind (adds_serializer_dump_strings K _ _
    (by simpa [Call.is_pipeline, Call.is_interpreter, hs256] using hs) _) fun _ _ _ => ?_
  refine adds_bind (adds_call K (by simp [Call.is_pipeline, Call.is_interpreter]) _) fun _ _ _ => ?_
  refine adds_bind (adds_call K (by simp [Call.is_pipeline, Call.is_interpreter]) _) fun _ _ _ => ?_
  refine adds_bind (adds_call K (by simp [Call.is_pipeline, Call.is_interpreter]) _) fun _ _ _ => ?_
  refine adds_bind (adds_call K (by simp [Call.is_pipeline, Call.is_interpreter]) _) fun _ _ _ => ?_
  refine adds_bind (adds_deserialize_bytecode K
    (by simp [Call.is_pipeline, Call.is_interpreter]) _) fun _ _ _ => ?_
  refine adds_bind (adds_call K (by simp [Call.is_pipeline, Call.is_interpreter]) _) fun _ _ _ => ?_
  split_ifs
  · exact adds_bind (adds_call K (by simp [Call.is_pipeline, Call.is_interpreter]) _)
      fun _ _ _ => adds_pure _ _ _
  · exact adds_bind (adds_pure _ _ _) fun _ _ _ => adds_pure _ _ _

theorem exits_bind {α β : Type} (m : Run α) (f : α → Run β) (tr : List Call)
    (e : jerry_status_t) (tr2 : List Call) :
    Exits (m >>= f) tr e tr2 ↔
      Exits m tr e tr2 ∨ ∃ a tr1, Returns m tr a tr1 ∧ Exits (f a) tr1 e tr2 := by
  show Exits (Run.bind m f) tr e tr2 ↔ _
  unfold Exits Returns Run.bind
  rcases hm : m tr with ⟨r, tr1⟩
  cases r with
  | error e1 => simp
  | ok a =>
    simp only [Prod.mk.injEq, Except.ok.injEq, reduceCtorEq, false_and, false_or]
    constructor
    · intro h
      exact ⟨a, tr1, ⟨rfl, rfl⟩, h⟩
    · rintro ⟨_, _, ⟨rfl, rfl⟩, h⟩
      exact h

theorem exits_pure {α : Type} (a : α) (tr tr1 : List Call) (e : jerry_status_t) :
    Exits (pure a : Run α) tr e tr1 ↔ False := by
  show ((Except.ok a, tr) : Except jerry_status_t α × List Call) = (.error e, tr1) ↔ _
  simp

theorem exits_call (K : Components) (c : Call) (tr tr1 : List Call) (e : jerry_status_t) :
    Exits (call K c) tr e tr1 ↔ K.stops (tr ++ [c]) = some e ∧ tr1 = tr ++ [c] := by
  unfold Exits call
  cases h : K.stops (tr ++ [c]) with
  | none => simp
  | some e1 => simp [eq_comm]

theorem exits_emit (c : Call) (tr tr1 : List Call) (e : jerry_status_t) :
    Exits (emit c) tr e tr1 ↔ False := by
  simp [Exits, emit]

theorem exits_fail {α : Type} (e1 e : jerry_status_t) (tr tr1 : List Call) :
    Exits (fail e1 : Run α) tr e tr1 ↔ e = e1 ∧ tr1 = tr := by
  simp [Exits, fail, eq_comm]

theorem exits_jerry_exit {α : Type} (e1 e : jerry_status_t) (tr tr1 : List Call) :
    Exits (jerry_exit e1 : Run α) tr e tr1 ↔ e = e1 ∧ tr1 = tr ++ [.jerry_exit e1] := by
  simp [Exits, jerry_exit, eq_comm]

/-! ## Lemmas on `read_sources` -/

theorem fread_into_length (dst data : List Nat) (h : data.length ≤ dst.length) :
    (fread_into dst data).length = dst.length := by
  simp [fread_into]
  omega

/-- One loop iteration returns exactly when the file opens, seeks, reports a
non-negative length that keeps the total strictly below the capacity, and
delivers that many bytes; the bytes are stored at the start of the buffer. -/
theorem returns_read_source_file (K : Components) (st st1 : SourceBuffer) (name : String)
    (tr tr1 : List Call) :
    Returns (read_source_file K st name) tr st1 tr1 ↔
      (K.files name).opens = true ∧ (K.files name).fseek_status = 0 ∧
      0 ≤ (K.files name).ftell ∧
      st.source_buffer_tail + file_size K name < K.JERRY_SOURCE_BUFFER_SIZE ∧
      file_size K name ≤ (K.files name).content.length ∧
      st1 = { source_buffer :=
                fread_into st.source_buffer ((K.files name).content.take (file_size K name))
              source_buffer_tail := st.source_buffer_tail + file_size K name } ∧
      tr1 = tr ++ file_calls K name := by
  unfold read_source_file
  dsimp only
  constructor
  · intro h
    split_ifs at h with h1 h2 h3 h4 h5 <;>
      simp only [returns_bind, returns_emit, returns_jerry_exit, returns_pure, exists_false,
        and_false, exists_const] at h
    obtain ⟨_, rfl, _, rfl, _, rfl, _, rfl, _, rfl, _, rfl, rfl, rfl⟩ := h
    refine ⟨by simpa using h1, by simpa using h2, by simpa using h3, ?_, ?_, rfl, ?_⟩
    · simpa [file_size] using h4
    · simpa [file_size] using h5
    · simp [file_calls, file_size]
  · rintro ⟨h1, h2, h3, h4, h5, rfl, rfl⟩
    rw [if_neg (by simp [h1]), if_neg (by simp [h2]), if_neg (by simpa using h3),
      if_neg (by simpa [file_size] using h4), if_neg (by simpa [file_size] using h5)]
    simp only [returns_bind, returns_emit, returns_pure]
    exact ⟨(), _, rfl, (), _, rfl, (), _, rfl, (), _, rfl, (), _, rfl, (), _, rfl, rfl,
      by simp [file_calls, file_size]⟩

/-- The status with which one loop iteration ends the process: `ERR_IO` when
the open, the seek, the sign of the length or (within capacity) the read
fails, `ERR_MEMORY` when the file opens, seeks and reports a non-negative
length that takes the total up to the capacity or beyond. -/
theorem exits_read_source_file (K : Components) (st : SourceBuffer) (name : String)
    (tr : List Call) (e : jerry_status_t) :
    (∃ tr1, Exits (read_source_file K st name) tr e tr1) ↔
      (e = jerry_status_t.ERR_IO ∧
        ((K.files name).opens = false ∨ (K.files name).fseek_status ≠ 0 ∨
          (K.files name).ftell < 0 ∨
          (st.source_buffer_tail + file_size K name < K.JERRY_SOURCE_BUFFER_SIZE ∧
            (K.files name).content.length < file_size K name))) ∨
      (e = jerry_status_t.ERR_MEMORY ∧ (K.files name).opens = true ∧
        (K.files name).fseek_status = 0 ∧ 0 ≤ (K.files name).ftell ∧
        K.JERRY_SOURCE_BUFFER_SIZE ≤ st.source_buffer_tail + file_size K name) := by
  unfold read_source_file
  dsimp only
  split_ifs with h1 h2 h3 h4 h5 <;>
    simp only [exits_bind, exits_emit, returns_emit, exits_jerry_exit, exits_pure, false_or,
      exists_eq_left, exists_and_left, exists_eq, and_true, exists_const, or_false]
  · simp [h1]
  · simp at h1
    simp [h1, h2]
  · simp at h1 h2
    simp [h1, h2, h3]
  · simp at h1 h2 h3
    have h4' : K.JERRY_SOURCE_BUFFER_SIZE ≤ st.source_buffer_tail + file_size K name := h4
    simp [h1, h2, h3, h4', not_lt.2 h3, not_lt.2 h4']
  · simp at h1 h2 h3
    have h4' : st.source_buffer_tail + file_size K name < K.JERRY_SOURCE_BUFFER_SIZE := by
      simpa [file_size] using h4
    have h5' : (K.files name).content.length < file_size K name := by
      simpa [file_size] using h5
    simp [h1, h2, h3, h4', h5', not_lt.2 h3, not_le.2 h4']
  · simp at h1 h2 h3
    have h4' : st.source_buffer_tail + file_size K name < K.JERRY_SOURCE_BUFFER_SIZE := by
      simpa [file_size] using h4
    have h5' : ¬ (K.files name).content.length < file_size K name := by
      simpa [file_size] using h5
    simp [h1, h2, h3, h4', h5', not_lt.2 h3, not_le.2 h4']

theorem returns_read_sources_loop_nil (K : Components) (st st1 : SourceBuffer)
    (tr tr1 : List Call) :
    Returns (read_sources_loop K [] st) tr st1 tr1 ↔ st1 = st ∧ tr1 = tr := by
  unfold read_sources_loop
  exact returns_pure _ _ _ _

theorem returns_read_sources_loop_cons (K : Components) (name : String) (rest : List String)
    (st st2 : SourceBuffer) (tr tr2 : List Call) :
    Returns (read_sources_loop K (name :: rest) st) tr st2 tr2 ↔
      ∃ st1 tr1, Returns (read_source_file K st name) tr st1 tr1 ∧
        Returns (read_sources_loop K rest st1) tr1 st2 tr2 := by
  rw [read_sources_loop]
  exact returns_bind _ _ _ _ _

theorem exits_read_sources_loop_cons (K : Components) (name : String) (rest : List String)
    (st : SourceBuffer) (tr tr2 : List Call) (e : jerry_status_t) :
    Exits (read_sources_loop K (name :: rest) st) tr e tr2 ↔
      Exits (read_source_file K st name) tr e tr2 ∨
      ∃ st1 tr1, Returns (read_source_file K st name) tr st1 tr1 ∧
        Exits (read_sources_loop K rest st1) tr1 e tr2 := by
  rw [read_sources_loop]
  exact exits_bind _ _ _ _ _

/-- The loop over `pre ++ post` returns exactly when the loop over `pre`
returns and the loop over `post` returns from the state reached. -/
theorem returns_read_sources_loop_append (K : Components) (pre post : List String)
    (st st2 : SourceBuffer) (tr tr2 : List Call) :
    Returns (read_sources_loop K (pre ++ post) st) tr st2 tr2 ↔
      ∃ st1 tr1, Returns (read_sources_loop K pre st) tr st1 tr1 ∧
        Returns (read_sources_loop K post st1) tr1 st2 tr2 := by
  induction pre generalizing st tr with
  | nil =>
    simp only [List.nil_append, returns_read_sources_loop_nil]
    constructor
    · intro h
      exact ⟨st, tr, ⟨rfl, rfl⟩, h⟩
    · rintro ⟨_, _, ⟨rfl, rfl⟩, h⟩
      exact h
  | cons name rest ih =>
    simp only [List.cons_append, returns_read_sources_loop_cons, ih]
    constructor
    · rintro ⟨s1, t1, h1, s2, t2, h2, h3⟩
      exact ⟨s2, t2, ⟨s1, t1, h1, h2⟩, h3⟩
    · rintro ⟨s2, t2, ⟨s1, t1, h1, h2⟩, h3⟩
      exact ⟨s1, t1, h1, s2, t2, h2, h3⟩

/-- The loop over `pre ++ post` ends the process exactly when the loop over
`pre` does, or it returns and the loop over `post` ends the process. -/
theorem exits_read_sources_loop_append (K : Components) (pre post : List String)
    (st : SourceBuffer) (tr tr2 : List Call) (e : jerry_status_t) :
    Exits (read_sources_loop K (pre ++ post) st) tr e tr2 ↔
      Exits (read_sources_loop K pre st) tr e tr2 ∨
      ∃ st1 tr1, Returns (read_sources_loop K pre st) tr st1 tr1 ∧
        Exits (read_sources_loop K post st1) tr1 e tr2 := by
  induction pre generalizing st tr with
  | nil =>
    have hnil : ∀ tr2, ¬ Exits (read_sources_loop K [] st) tr e tr2 := by
      intro tr2
      unfold read_sources_loop
      simp [exits_pure]
    simp only [List.nil_append, returns_read_sources_loop_nil, hnil, false_or]
    constructor
    · intro h
      exact ⟨st, tr, ⟨rfl, rfl⟩, h⟩
    · rintro ⟨_, _, ⟨rfl, rfl⟩, h⟩
      exact h
  | cons name rest ih =>
    simp only [List.cons_append, exits_read_sources_loop_cons, returns_read_sources_loop_cons, ih]
    constructor
    · rintro (h | ⟨s1, t1, h1, h2 | ⟨s2, t2, h2, h3⟩⟩)
      · exact Or.inl (Or.inl h)
      · exact Or.inl (Or.inr ⟨s1, t1, h1, h2⟩)
      · exact Or.inr ⟨s2, t2, ⟨s1, t1, h1, h2⟩, h3⟩
    · rintro ((h | ⟨s1, t1, h1, h2⟩) | ⟨s2, t2, ⟨s1, t1, h1, h2⟩, h3⟩)
      · exact Or.inl h
      · exact Or.inr ⟨s1, t1, h1, Or.inl h2⟩
      · exact Or.inr ⟨s1, t1, h1, Or.inr ⟨s2, t2, h2, h3⟩⟩

/-- What holds when the loop returns: the tail has advanced by the sum of the
file sizes, the total is below the capacity if it was so on entry, the buffer
keeps its length, and every file passed every check with a size that fits. -/
theorem read_sources_loop_returns (K : Components) (names : List String)
    (st st1 : SourceBuffer) (tr tr1 : List Call)
    (h : Returns (read_sources_loop K names st) tr st1 tr1) :
    st1.source_buffer_tail = st.source_buffer_tail + (names.map (file_size K)).sum ∧
    (st.source_buffer_tail < K.JERRY_SOURCE_BUFFER_SIZE →
      st1.source_buffer_tail < K.JERRY_SOURCE_BUFFER_SIZE) ∧
    (st.source_buffer.length = K.JERRY_SOURCE_BUFFER_SIZE →
      st1.source_buffer.length = K.JERRY_SOURCE_BUFFER_SIZE) ∧
    (∀ name ∈ names, file_size K name < K.JERRY_SOURCE_BUFFER_SIZE ∧
      file_size K name ≤ (K.files name).content.length ∧ (K.files name).opens = true ∧
      (K.files name).fseek_status = 0 ∧ 0 ≤ (K.files name).ftell) ∧
    tr1 = tr ++ (names.map (file_calls K)).flatten := by
  induction names generalizing st tr with
  | nil =>
    obtain ⟨rfl, rfl⟩ := (returns_read_sources_loop_nil K st st1 tr tr1).1 h
    simp
  | cons name rest ih =>
    obtain ⟨s1, t1, h1, h2⟩ := (returns_read_sources_loop_cons K name rest st st1 tr tr1).1 h
    obtain ⟨ho, hs, hl, hc, hr, rfl, rfl⟩ := (returns_read_source_file K st s1 name tr t1).1 h1
    obtain ⟨i1, i2, i3, i4, i5⟩ := ih _ _ h2
    simp only at i1 i2 i3
    refine ⟨?_, fun _ => i2 hc, ?_, ?_, ?_⟩
    · simp only [List.map_cons, List.sum_cons]
      omega
    · intro hlen
      apply i3
      rw [fread_into_length]
      · exact hlen
      · simp only [List.length_take]
        omega
    · intro nm hnm
      rcases List.mem_cons.1 hnm with rfl | hnm
      · exact ⟨by omega, hr, ho, hs, hl⟩
      · exact i4 nm hnm
    · simp [i5]

/-- The function `read_sources` returns exactly when its loop returns with the total below
the capacity; the result is the buffer and the total. -/
theorem returns_read_sources (K : Components) (names : List String) (tr tr1 : List Call)
    (r : List Nat × Nat) :
    Returns (read_sources K names) tr r tr1 ↔
      ∃ st, Returns (read_sources_loop K names (source_buffer_init K)) tr st tr1 ∧
        st.source_buffer_tail < K.JERRY_SOURCE_BUFFER_SIZE ∧
        r = (st.source_buffer, st.source_buffer_tail) := by
  unfold read_sources
  simp only [returns_bind]
  constructor
  · rintro ⟨st, tr0, hl, h⟩
    split_ifs at h with hlt
    · obtain ⟨rfl, rfl⟩ := (returns_pure _ _ _ _).1 h
      exact ⟨st, hl, hlt, rfl⟩
    · exact absurd h (by simp [returns_fail])
  · rintro ⟨st, hl, hlt, rfl⟩
    refine ⟨st, tr1, hl, ?_⟩
    rw [if_pos hlt]
    exact (returns_pure _ _ _ _).2 ⟨rfl, rfl⟩

/-- The function `read_sources` ends the process when its loop does, or, with the status of
a failed assertion, when the loop returns a total that is not below the
capacity. -/
theorem exits_read_sources (K : Components) (names : List String) (tr tr1 : List Call)
    (e : jerry_status_t) :
    Exits (read_sources K names) tr e tr1 ↔
      Exits (read_sources_loop K names (source_buffer_init K)) tr e tr1 ∨
      ∃ st, Returns (read_sources_loop K names (source_buffer_init K)) tr st tr1 ∧
        ¬ st.source_buffer_tail < K.JERRY_SOURCE_BUFFER_SIZE ∧
        e = jerry_status_t.ERR_ASSERT := by
  unfold read_sources
  simp only [exits_bind]
  constructor
  · rintro (h | ⟨st, tr0, hl, h⟩)
    · exact Or.inl h
    · split_ifs at h with hlt
      · exact absurd h (by simp [exits_pure])
      · obtain ⟨rfl, rfl⟩ := (exits_fail _ _ _ _).1 h
        exact Or.inr ⟨st, hl, hlt, rfl⟩
  · rintro (h | ⟨st, hl, hlt, rfl⟩)
    · exact Or.inl h
    · refine Or.inr ⟨st, tr1, hl, ?_⟩
      rw [if_neg hlt]
      exact (exits_fail _ _ _ _).2 ⟨rfl, rfl⟩

/-- Whatever happens, one loop iteration makes only libc calls and
`jerry_exit`, and asks `__fread` for fewer bytes than the buffer holds. -/
theorem adds_read_source_file (K : Components) (st : SourceBuffer) (name : String)
    (tr : List Call) :
    Adds (fun c => c.is_pipeline = false ∧
        ∀ nm cnt, c = .fread nm cnt → cnt < K.JERRY_SOURCE_BUFFER_SIZE)
      (read_source_file K st name) tr := by
  unfold read_source_file
  dsimp only
  refine adds_bind (adds_emit (by simp [Call.is_pipeline]) _) fun _ _ _ => ?_
  split_ifs with h1 h2 h3 h4 h5
  · exact adds_jerry_exit (by simp [Call.is_pipeline]) _
  · exact adds_bind (adds_emit (by simp [Call.is_pipeline]) _) fun _ _ _ =>
      adds_jerry_exit (by simp [Call.is_pipeline]) _
  · exact adds_bind (adds_emit (by simp [Call.is_pipeline]) _) fun _ _ _ =>
      adds_bind (adds_emit (by simp [Call.is_pipeline]) _) fun _ _ _ =>
      adds_jerry_exit (by simp [Call.is_pipeline]) _
  · exact adds_bind (adds_emit (by simp [Call.is_pipeline]) _) fun _ _ _ =>
      adds_bind (adds_emit (by simp [Call.is_pipeline]) _) fun _ _ _ =>
      adds_bind (adds_emit (by simp [Call.is_pipeline]) _) fun _ _ _ =>
      adds_jerry_exit (by simp [Call.is_pipeline]) _
  · have h4' : (K.files name).ftell.toNat < K.JERRY_SOURCE_BUFFER_SIZE := by
      have := not_le.1 h4
      omega
    exact adds_bind (adds_emit (by simp [Call.is_pipeline]) _) fun _ _ _ =>
      adds_bind (adds_emit (by simp [Call.is_pipeline]) _) fun _ _ _ =>
      adds_bind (adds_emit (by simp [Call.is_pipeline]) _) fun _ _ _ =>
      adds_bind (adds_emit (by simpa [Call.is_pipeline] using h4') _) fun _ _ _ =>
      adds_jerry_exit (by simp [Call.is_pipeline]) _
  · have h4' : (K.files name).ftell.toNat < K.JERRY_SOURCE_BUFFER_SIZE := by
      have := not_le.1 h4
      omega
    exact adds_bind (adds_emit (by simp [Call.is_pipeline]) _) fun _ _ _ =>
      adds_bind (adds_emit (by simp [Call.is_pipeline]) _) fun _ _ _ =>
      adds_bind (adds_emit (by simp [Call.is_pipeline]) _) fun _ _ _ =>
      adds_bind (adds_emit (by simpa [Call.is_pipeline] using h4') _) fun _ _ _ =>
      adds_bind (adds_emit (by simp [Call.is_pipeline]) _) fun _ _ _ => adds_pure _ _ _

theorem adds_read_sources_loop (K : Components) (names : List String) (st : SourceBuffer)
    (tr : List Call) :
    Adds (fun c => c.is_pipeline = false ∧
        ∀ nm cnt, c = .fread nm cnt → cnt < K.JERRY_SOURCE_BUFFER_SIZE)
      (read_sources_loop K names st) tr := by
  induction names generalizing st tr with
  | nil =>
    unfold read_sources_loop
    exact adds_pure _ _ _
  | cons name rest ih =>
    rw [read_sources_loop]
    exact adds_bind (adds_read_source_file K st name tr) fun st1 tr1 _ => ih st1 tr1

/-- Whatever happens, `read_sources` makes only libc calls and `jerry_exit`,
and asks `__fread` for fewer bytes than the buffer holds. -/
theorem adds_read_sources (K : Components) (names : List String) (tr : List Call) :
    Adds (fun c => c.is_pipeline = false ∧
        ∀ nm cnt, c = .fread nm cnt → cnt < K.JERRY_SOURCE_BUFFER_SIZE)
      (read_sources K names) tr := by
  unfold read_sources
  refine adds_bind (adds_read_sources_loop K names _ tr) fun st tr1 _ => ?_
  dsimp only
  split_ifs
  · exact adds_pure _ _ _
  · exact adds_fail _ _ _

theorem adds_main_arg (a : Args) (arg : String) (tr : List Call) :
    Adds (fun c => c.is_pipeline = false) (main_arg a arg) tr := by
  unfold main_arg
  refine adds_bind ?_ fun _ _ _ => ?_
  · split_ifs
    · have hp : ∀ s, (fun c : Call => c.is_pipeline = false) (.printf s) := fun _ => rfl
      exact adds_bind (adds_emit (hp _) _) fun _ _ _ => adds_bind (adds_emit (hp _) _)
        fun _ _ _ => adds_bind (adds_emit (hp _) _) fun _ _ _ => adds_emit (hp _) _
    · exact adds_pure _ _ _
  · split_ifs <;> exact adds_pure _ _ _

/-- The argument loop makes `__printf` calls only. -/
theorem adds_main_args (args : List String) (a : Args) (tr : List Call) :
    Adds (fun c => c.is_pipeline = false) (main_args args a) tr := by
  induction args generalizing a tr with
  | nil =>
    unfold main_args
    exact adds_pure _ _ _
  | cons arg rest ih =>
    rw [main_args]
    exact adds_bind (adds_main_arg a arg tr) fun a1 tr1 _ => ih a1 tr1

theorem adds_of_returns {α : Type} {P : Call → Prop} {m : Run α} {tr tr1 : List Call} {a : α}
    (h : Adds P m tr) (hr : Returns m tr a tr1) : ∃ new, tr1 = tr ++ new ∧ ∀ c ∈ new, P c := by
  obtain ⟨new, h1, h2⟩ := h
  unfold Returns at hr
  rw [hr] at h1
  exact ⟨new, h1, h2⟩

theorem adds_of_exits {α : Type} {P : Call → Prop} {m : Run α} {tr tr1 : List Call}
    {e : jerry_status_t} (h : Adds P m tr) (hr : Exits m tr e tr1) :
    ∃ new, tr1 = tr ++ new ∧ ∀ c ∈ new, P c := by
  obtain ⟨new, h1, h2⟩ := h
  unfold Exits at hr
  rw [hr] at h1
  exact ⟨new, h1, h2⟩

/-- When one loop iteration ends the process, its last call is `jerry_exit`
with the status. -/
theorem exits_read_source_file_last (K : Components) (st : SourceBuffer) (name : String)
    (tr tr1 : List Call) (e : jerry_status_t) (h : Exits (read_source_file K st name) tr e tr1) :
    ∃ t0, tr1 = t0 ++ [.jerry_exit e] := by
  unfold read_source_file at h
  dsimp only at h
  split_ifs at h with h1 h2 h3 h4 h5 <;>
    simp only [exits_bind, exits_emit, returns_emit, exits_jerry_exit, exits_pure, false_or,
      exists_eq_left, exists_and_left, exists_eq, and_true, exists_const, or_false] at h
  all_goals
    obtain ⟨rfl, rfl⟩ := h
    exact ⟨_, rfl⟩

theorem exits_read_sources_loop_last (K : Components) (names : List String) (st : SourceBuffer)
    (tr tr1 : List Call) (e : jerry_status_t)
    (h : Exits (read_sources_loop K names st) tr e tr1) :
    (∃ t0, tr1 = t0 ++ [.jerry_exit e]) ∧
      (e = jerry_status_t.ERR_IO ∨ e = jerry_status_t.ERR_MEMORY) := by
  induction names generalizing st tr with
  | nil =>
    unfold read_sources_loop at h
    exact absurd h (by simp [exits_pure])
  | cons name rest ih =>
    rcases (exits_read_sources_loop_cons K name rest st tr tr1 e).1 h with h | ⟨s1, t1, -, h⟩
    · refine ⟨exits_read_source_file_last K st name tr tr1 e h, ?_⟩
      rcases (exits_read_source_file K st name tr e).1 ⟨tr1, h⟩ with ⟨he, -⟩ | ⟨he, -⟩
      · exact Or.inl he
      · exact Or.inr he
    · exact ih s1 t1 h

/-! ## The order of calls, whether or not the run returns -/

theorem makes_bind {α β : Type} {m : Run α} {f : α → Run β} {tr A B : List Call}
    (hm : Makes m tr A)
    (hf : ∀ a tr1, Returns m tr a tr1 → tr1 = tr ++ A ∧ Makes (f a) tr1 B) :
    Makes (m >>= f) tr (A ++ B) := by
  obtain ⟨new, h2, hP⟩ := hm
  show Makes (Run.bind m f) tr (A ++ B)
  unfold Makes Run.bind
  rcases hmt : m tr with ⟨r, tr1⟩
  rw [hmt] at h2
  simp only at h2
  subst h2
  cases r with
  | error e => exact ⟨new, rfl, hP.trans (List.prefix_append A B)⟩
  | ok a =>
    obtain ⟨h3, new2, h4, hP2⟩ := hf a _ hmt
    have hnew : new = A := List.append_cancel_left h3
    subst hnew
    refine ⟨new ++ new2, ?_, (List.prefix_append_right_inj new).2 hP2⟩
    simp only [h4, List.append_assoc]

theorem makes_pure {α : Type} (a : α) (tr : List Call) : Makes (pure a : Run α) tr [] :=
  ⟨[], by show tr = tr ++ []; simp, List.prefix_refl _⟩

theorem makes_fail {α : Type} (e : jerry_status_t) (tr : List Call) :
    Makes (fail e : Run α) tr [] :=
  ⟨[], by simp [fail], List.prefix_refl _⟩

theorem makes_call (K : Components) (c : Call) (tr : List Call) : Makes (call K c) tr [c] := by
  refine ⟨[c], ?_, List.prefix_refl _⟩
  unfold call
  cases K.stops (tr ++ [c]) <;> rfl

/-- Whether or not it returns, `parser_run` makes its calls in the order of
`parser_calls`: the calls made are an initial segment of that list. -/
theorem makes_parser_run (K : Components) (src : List Nat) (n : Nat) (so : Bool)
    (tr : List Call) :
    ∃ offset p, Makes (parser_run K src n so) tr
      (parser_calls K.TARGET_HOST_x64 src n so (discover (K.scan src n)) offset p) := by
  refine ⟨K.dump_strings_offset (tr ++ [.lexer_init src n so, .lexer_run_first_pass,
      .lexer_get_strings (discover (K.scan src n)).strings,
      .lexer_get_nums (discover (K.scan src n)).nums, .lexer_adjust_num_ids,
      .serializer_dump_strings (discover (K.scan src n)).strings
        ((discover (K.scan src n)).strings.length % 256)]) % 65536, ?_⟩
  refine ⟨K.bytecode (tr ++ [.lexer_init src n so, .lexer_run_first_pass,
      .lexer_get_strings (discover (K.scan src n)).strings,
      .lexer_get_nums (discover (K.scan src n)).nums, .lexer_adjust_num_ids,
      .serializer_dump_strings (discover (K.scan src n)).strings
        ((discover (K.scan src n)).strings.length % 256),
      .serializer_dump_nums (discover (K.scan src n)).nums
        ((discover (K.scan src n)).nums.length % 256)
        (K.dump_strings_offset (tr ++ [.lexer_init src n so, .lexer_run_first_pass,
          .lexer_get_strings (discover (K.scan src n)).strings,
          .lexer_get_nums (discover (K.scan src n)).nums, .lexer_adjust_num_ids,
          .serializer_dump_strings (discover (K.scan src n)).strings
            ((discover (K.scan src n)).strings.length % 256)]) % 65536)
        ((discover (K.scan src n)).strings.length % 256),
      .parser_init, .parser_parse_program, .lexer_free, .deserialize_bytecode]), ?_⟩
  unfold parser_run parser_calls
  refine makes_bind (A := [_]) (makes_call K _ _) fun _ t1 h1 => ?_
  obtain ⟨-, rfl⟩ := (returns_call K _ _ _ _).1 h1
  refine ⟨rfl, ?_⟩
  refine makes_bind (A := [.lexer_run_first_pass]) ?_ fun t t2 h2 => ?_
  · unfold lexer_run_first_pass
    refine makes_bind (A := [_]) (B := []) (makes_call K _ _) fun _ t1 h1 => ?_
    obtain ⟨-, rfl⟩ := (returns_call K _ _ _ _).1 h1
    refine ⟨rfl, ?_⟩
    dsimp only
    split_ifs
    · exact makes_fail _ _
    · exact makes_pure _ _
  obtain ⟨-, rfl, rfl, -, -⟩ := (returns_lexer_run_first_pass K src n _ _ _).1 h2
  refine ⟨rfl, ?_⟩
  refine makes_bind (A := [.lexer_get_strings (discover (K.scan src n)).strings]) ?_
    fun r t3 h3 => ?_
  · unfold lexer_get_strings
    refine makes_bind (A := [_]) (B := []) (makes_call K _ _) fun _ t1 h1 => ?_
    obtain ⟨-, rfl⟩ := (returns_call K _ _ _ _).1 h1
    exact ⟨rfl, makes_pure _ _⟩
  obtain ⟨-, rfl, rfl⟩ := (returns_lexer_get_strings K _ _ _ _).1 h3
  refine ⟨rfl, ?_⟩
  refine makes_bind (A := [.lexer_get_nums (discover (K.scan src n)).nums]) ?_
    fun r t4 h4 => ?_
  · unfold lexer_get_nums
    refine makes_bind (A := [_]) (B := []) (makes_call K _ _) fun _ t1 h1 => ?_
    obtain ⟨-, rfl⟩ := (returns_call K _ _ _ _).1 h1
    exact ⟨rfl, makes_pure _ _⟩
  obtain ⟨-, rfl, rfl⟩ := (returns_lexer_get_nums K _ _ _ _).1 h4
  refine ⟨rfl, ?_⟩
  refine makes_bind (A := [_]) (makes_call K _ _) fun _ t1 h1 => ?_
  obtain ⟨-, rfl⟩ := (returns_call K _ _ _ _).1 h1
  refine ⟨rfl, ?_⟩
  refine makes_bind (A := [.serializer_dump_strings (discover (K.scan src n)).strings
    ((discover (K.scan src n)).strings.length % 256)]) ?_ fun off t6 h6 => ?_
  · refine ⟨[_], ?_, List.prefix_refl _⟩
    unfold serializer_dump_strings call
    cases K.stops _ <;> rfl
  obtain ⟨-, rfl, rfl⟩ := (returns_serializer_dump_strings K _ _ _ _ _).1 h6
  refine ⟨rfl, ?_⟩
  clear h1 h2 h3 h4 h6
  simp only [List.append_assoc, List.singleton_append, List.cons_append, List.nil_append]
  refine makes_bind (A := [_]) (makes_call K _ _) fun _ t1 h1 => ?_
  obtain ⟨-, rfl⟩ := (returns_call K _ _ _ _).1 h1
  refine ⟨rfl, ?_⟩
  refine makes_bind (A := [_]) (makes_call K _ _) fun _ t1 h1 => ?_
  obtain ⟨-, rfl⟩ := (returns_call K _ _ _ _).1 h1
  refine ⟨rfl, ?_⟩
  refine makes_bind (A := [_]) (makes_call K _ _) fun _ t1 h1 => ?_
  obtain ⟨-, rfl⟩ := (returns_call K _ _ _ _).1 h1
  refine ⟨rfl, ?_⟩
  refine makes_bind (A := [_]) (makes_call K _ _) fun _ t1 h1 => ?_
  obtain ⟨-, rfl⟩ := (returns_call K _ _ _ _).1 h1
  refine ⟨rfl, ?_⟩
  refine makes_bind (A := [.deserialize_bytecode]) ?_ fun p t11 h11 => ?_
  · refine ⟨[_], ?_, List.prefix_refl _⟩
    unfold deserialize_bytecode call
    cases K.stops _ <;> rfl
  obtain ⟨-, rfl, rfl⟩ := (returns_deserialize_bytecode K _ _ _).1 h11
  refine ⟨rfl, ?_⟩
  simp only [List.append_assoc, List.singleton_append, List.cons_append, List.nil_append]
  refine makes_bind (A := [_]) (makes_call K _ _) fun _ t1 h1 => ?_
  obtain ⟨-, rfl⟩ := (returns_call K _ _ _ _).1 h1
  refine ⟨rfl, ?_⟩
  cases K.TARGET_HOST_x64
  · simp only [Bool.false_eq_true, if_false]
    exact makes_bind (A := []) (B := []) (makes_pure _ _) fun _ t1 h1 =>
      ⟨by simpa using ((returns_pure _ _ _ _).1 h1).2, makes_pure _ _⟩
  · simp only [if_true]
    refine makes_bind (A := [_]) (B := []) (makes_call K _ _) fun _ t1 h1 => ?_
    obtain ⟨-, rfl⟩ := (returns_call K _ _ _ _).1 h1
    exact ⟨rfl, makes_pure _ _⟩


/-! ## The pipeline driver: `parser_run` and `jerry_run` -/

/-- The calls `parser_run` makes are pairwise different calls. -/
theorem parser_calls_nodup (host : Bool) (src : List Nat) (n : Nat) (so : Bool)
    (t : LiteralTables) (offset : Nat) (p : OpcodesPtr) :
    (parser_calls host src n so t offset p).Nodup := by
  cases host <;> simp [parser_calls]

/-- None of the calls `parser_run` makes is a call of the memory manager or of
the interpreter. -/
theorem parser_calls_kind (host : Bool) (src : List Nat) (n : Nat) (so : Bool)
    (t : LiteralTables) (offset : Nat) (p : OpcodesPtr) :
    ∀ c ∈ parser_calls host src n so t offset p,
      (c.is_pipeline = true ∧ c.is_interpreter = false) ∧ c ≠ .mem_init ∧
        c ≠ .serializer_free ∧ ∀ f, c ≠ .mem_finalize f := by
  cases host <;> simp [parser_calls, Call.is_interpreter, Call.is_pipeline]

/-- C1 (as the code behaves): a call of `jerry_run` with `is_parse_only = true`
that returns has called `mem_init` and then only `serializer_init` and the
calls of `parser_run`; it returns `true` without calling `serializer_free` or
`mem_finalize`, so the arena acquired by `mem_init` is not released on this
exit path. -/
theorem jerry_run_parse_only_skips_mem_finalize (K : Components) (src : List Nat) (n : Nat)
    (so sm : Bool) (tr tr1 : List Call) (b : Bool)
    (h : Returns (jerry_run K src n true so sm) tr b tr1) :
    ∃ new, tr1 = tr ++ new ∧ new.head? = some .mem_init ∧
      .serializer_free ∉ new ∧ ∀ f, .mem_finalize f ∉ new := by
  obtain ⟨p, tr0, hp, hcase⟩ := jerry_run_returns K src n true so sm tr tr1 b h
  obtain ⟨-, -, offset, rfl⟩ := parser_run_returns K src n so _ _ p hp
  rcases hcase with ⟨-, -, rfl⟩ | ⟨hpo, -⟩
  · refine ⟨[Call.mem_init, Call.serializer_init so] ++
      parser_calls K.TARGET_HOST_x64 src n so (discover (K.scan src n)) offset p,
      List.append_assoc _ _ _, rfl, ?_, ?_⟩
    · intro hmem
      rcases List.mem_append.1 hmem with h1 | h1
      · simp at h1
      · exact (parser_calls_kind _ _ _ _ _ _ _ _ h1).2.2.1 rfl
    · intro f hmem
      rcases List.mem_append.1 hmem with h1 | h1
      · simp at h1
      · exact (parser_calls_kind _ _ _ _ _ _ _ _ h1).2.2.2 f rfl
  · exact absurd hpo (by simp)

/-- A parse-only run in an environment where every component returns: the
trace ends with the last call of `parser_run`, and `mem_finalize` is absent. -/
theorem jerry_run_parse_only_skips_mem_finalize_witness :
    Returns (jerry_run (quiet true 8 [.str [97], .num 1, .str [97]] true (fun _ => missing_file))
        [49] 1 true false true) [] true
      ([.mem_init, .serializer_init false] ++
        parser_calls true [49] 1 false { strings := [[97]], nums := [1] } 7 42) ∧
    ∃ new, [.mem_init, .serializer_init false] ++
        parser_calls true [49] 1 false { strings := [[97]], nums := [1] } 7 42 = [] ++ new ∧
      new.head? = some .mem_init ∧ .serializer_free ∉ new ∧ ∀ f, .mem_finalize f ∉ new :=
  ⟨rfl, jerry_run_parse_only_skips_mem_finalize
    (quiet true 8 [.str [97], .num 1, .str [97]] true (fun _ => missing_file))
    [49] 1 false true [] _ true rfl⟩

/-- C2: a call of `jerry_run` with `is_parse_only = true` never calls the
interpreter (neither `init_int` nor `run_int` is among the calls it makes,
whether or not it returns); if it returns, it returns `true`; and it does
return when every component call returns and pass 1 stays within the literal
limits. -/
theorem jerry_run_parse_only_returns_true (K : Components) (src : List Nat) (n : Nat) (so sm : Bool)
    (tr : List Call) :
    Adds (fun c => c.is_interpreter = false) (jerry_run K src n true so sm) tr ∧
    (∀ b tr1, Returns (jerry_run K src n true so sm) tr b tr1 → b = true) ∧
    ((∀ h, K.stops h = none) →
      (discover (K.scan src n)).strings.length ≤ MAX_STRINGS →
      (discover (K.scan src n)).nums.length ≤ MAX_NUMS →
      ∃ tr1, Returns (jerry_run K src n true so sm) tr true tr1) := by
  refine ⟨?_, ?_, ?_⟩
  · unfold jerry_run
    refine adds_bind (adds_call K (by simp [Call.is_interpreter]) _) fun _ _ _ => ?_
    refine adds_bind (adds_call K (by simp [Call.is_interpreter]) _) fun _ _ _ => ?_
    refine adds_bind (adds_mono (adds_parser_run K src n so _) fun c hc => hc.2.1)
      fun _ _ _ => ?_
    rw [if_pos rfl]
    exact adds_pure _ _ _
  · intro b tr1 h
    obtain ⟨p, tr0, -, hcase⟩ := jerry_run_returns K src n true so sm tr tr1 b h
    rcases hcase with ⟨-, hb, -⟩ | ⟨hpo, -⟩
    · exact hb
    · exact absurd hpo (by simp)
  · intro hK hs hn
    obtain ⟨b, tr1, h⟩ := jerry_run_total K src n true so sm hK hs hn tr
    obtain ⟨p, tr0, -, hcase⟩ := jerry_run_returns K src n true so sm tr tr1 b h
    rcases hcase with ⟨-, hb, -⟩ | ⟨hpo, -⟩
    · exact ⟨tr1, hb ▸ h⟩
    · exact absurd hpo (by simp)

/-- A parse-only run at a concrete source: it returns `true`. -/
theorem jerry_run_parse_only_returns_true_witness :
    ∃ tr1, Returns (jerry_run (quiet true 8 [.str [97], .num 1] false (fun _ => missing_file))
      [49, 43, 50] 3 true true true) [] true tr1 :=
  (jerry_run_parse_only_returns_true (quiet true 8 [.str [97], .num 1] false (fun _ => missing_file))
    [49, 43, 50] 3 true true []).2.2 (fun _ => rfl) (by decide) (by decide)

/-- Every run of the argument loop returns: it makes libc calls only. -/
theorem main_arg_total (a : Args) (arg : String) : Total (main_arg a arg) := by
  unfold main_arg
  refine total_bind ?_ fun _ => ?_
  · split_ifs
    · exact total_bind (total_emit _) fun _ => total_bind (total_emit _) fun _ =>
        total_bind (total_emit _) fun _ => total_emit _
    · exact total_pure _
  · split_ifs <;> exact total_pure _

theorem main_args_total (args : List String) (a : Args) : Total (main_args args a) := by
  induction args generalizing a with
  | nil => exact total_pure _
  | cons arg rest ih =>
    unfold main_args
    exact total_bind (main_arg_total a arg) fun a1 => ih a1

/-- How a call of `main` returns: the arguments name at least one file,
`read_sources` returns the buffer, `jerry_run` returns on it with the flags of
the command line, and the status is 0 for `true` and 1 for `false`. -/
theorem main_returns (K : Components) (argv : List String) (tr tr1 : List Call) (st : Int) :
    Returns (main K argv) tr st tr1 ↔
      K.stops (tr ++ [.jrt_set_mem_limits K.data_limit K.stack_limit]) = none ∧
      ∃ a tr_a src n tr_r ok,
        Returns (main_args (argv.drop 1) main_locals)
          (tr ++ [.jrt_set_mem_limits K.data_limit K.stack_limit]) a tr_a ∧
        a.file_names ≠ [] ∧
        Returns (read_sources K a.file_names) tr_a (src, n) tr_r ∧
        Returns (jerry_run K src n a.parse_only a.show_opcodes a.print_mem_stats) tr_r ok tr1 ∧
        st = if ok = true then 0 else 1 := by
  unfold main
  simp only [returns_bind, returns_call]
  constructor
  · rintro ⟨_, _, ⟨hj, rfl⟩, a, tr_a, ha, h⟩
    split_ifs at h with hz
    · exact absurd h (by simp [returns_jerry_exit])
    · simp only [returns_bind, returns_pure] at h
      obtain ⟨⟨src, n⟩, tr_r, hr, ok, tr2, hrun, rfl, rfl⟩ := h
      exact ⟨hj, a, tr_a, src, n, tr_r, ok, ha, by simpa using hz, hr, hrun, rfl⟩
  · rintro ⟨hj, a, tr_a, src, n, tr_r, ok, ha, hne, hr, hrun, rfl⟩
    refine ⟨(), _, ⟨hj, rfl⟩, a, tr_a, ha, ?_⟩
    rw [if_neg (by simpa using hne)]
    simp only [returns_bind, returns_pure]
    exact ⟨(src, n), tr_r, hr, ok, tr1, hrun, rfl, rfl⟩

/-- C3: a call of `jerry_run` with `is_parse_only = false` that returns, returns
the boolean `run_int` produced (the trace ends with `run_int`, `serializer_free`,
`mem_finalize`, and the result is what `run_int` answered at that point); and a
call of `main` that returns has status 0 when its `jerry_run` returned `true`
and 1 when it returned `false`. -/
theorem jerry_run_result_is_run_int_result (K : Components) :
    (∀ src n so sm tr tr1 b, Returns (jerry_run K src n false so sm) tr b tr1 →
      ∃ hist, tr1 = hist ++ [.run_int, .serializer_free, .mem_finalize sm] ∧
        b = K.run_result (hist ++ [.run_int])) ∧
    (∀ argv tr tr1 st, Returns (main K argv) tr st tr1 →
      ∃ src n po so sm tr_r ok, Returns (jerry_run K src n po so sm) tr_r ok tr1 ∧
        (ok = true → st = 0) ∧ (ok = false → st = 1)) := by
  constructor
  · intro src n so sm tr tr1 b h
    obtain ⟨p, tr0, -, hcase⟩ := jerry_run_returns K src n false so sm tr tr1 b h
    rcases hcase with ⟨hpo, -⟩ | ⟨-, rfl, rfl⟩
    · exact absurd hpo (by simp)
    · exact ⟨tr0 ++ [.init_int p], by simp, by simp⟩
  · intro argv tr tr1 st h
    obtain ⟨-, a, tr_a, src, n, tr_r, ok, -, -, -, hrun, rfl⟩ := (main_returns K argv tr tr1 st).1 h
    refine ⟨src, n, _, _, _, tr_r, ok, hrun, ?_, ?_⟩ <;> intro hok <;> simp [hok]

/-- A full run at a concrete command line whose script fails: `jerry_run`
returns `false`, the result of `run_int`, and `main` returns 1. -/
theorem jerry_run_result_is_run_int_result_witness :
    (∃ hist, (jerry_run (quiet true 8 [.num 1] false example_files) [49, 43] 2 false false
          false []).2 = hist ++ [.run_int, .serializer_free, .mem_finalize false] ∧
        false = (quiet true 8 [.num 1] false example_files).run_result (hist ++ [.run_int])) ∧
    (∃ src n po so sm tr_r ok,
      Returns (jerry_run (quiet true 8 [.num 1] false example_files) src n po so sm) tr_r ok
        (main (quiet true 8 [.num 1] false example_files) ["jerry", "a"] []).2 ∧
      (ok = true → (1 : Int) = 0) ∧ (ok = false → (1 : Int) = 1)) :=
  ⟨(jerry_run_result_is_run_int_result (quiet true 8 [.num 1] false example_files)).1
      [49, 43] 2 false false [] _ false rfl,
    (jerry_run_result_is_run_int_result (quiet true 8 [.num 1] false example_files)).2
      ["jerry", "a"] [] _ 1 rfl⟩

/-- C4: a call of `parser_run` that returns has made exactly the calls
`lexer_init`, `lexer_run_first_pass`, `lexer_get_strings`, `lexer_get_nums`,
`lexer_adjust_num_ids`, `serializer_dump_strings`, `serializer_dump_nums`,
`parser_init`, `parser_parse_program`, `lexer_free`, `deserialize_bytecode`,
`optimizer_run_passes` (then `serializer_print_opcodes` on the host build), in
this order and each once (`parser_calls`); a call that does not return has
made an initial segment of this list; and in a call of `jerry_run` that
returns, these calls come in one block after `mem_init` and `serializer_init`,
the interpreter calls `init_int` and `run_int` only after the block. -/
theorem parser_run_call_order (K : Components) (src : List Nat) (n : Nat) (so : Bool) :
    (∀ tr, ∃ offset p, Makes (parser_run K src n so) tr
      (parser_calls K.TARGET_HOST_x64 src n so (discover (K.scan src n)) offset p)) ∧
    (∀ tr tr1 p, Returns (parser_run K src n so) tr p tr1 →
      ∃ offset,
        tr1 = tr ++ parser_calls K.TARGET_HOST_x64 src n so (discover (K.scan src n)) offset p ∧
        (parser_calls K.TARGET_HOST_x64 src n so (discover (K.scan src n)) offset p).Nodup ∧
        (parser_calls K.TARGET_HOST_x64 src n so (discover (K.scan src n)) offset p).length =
          (if K.TARGET_HOST_x64 = true then 13 else 12) ∧
        ∀ c ∈ parser_calls K.TARGET_HOST_x64 src n so (discover (K.scan src n)) offset p,
          c.is_interpreter = false) ∧
    (∀ po sm tr tr1 b, Returns (jerry_run K src n po so sm) tr b tr1 →
      ∃ offset p,
        tr1 = tr ++ [.mem_init, .serializer_init so] ++
          parser_calls K.TARGET_HOST_x64 src n so (discover (K.scan src n)) offset p ++
          (if po = true then []
           else [.init_int p, .run_int, .serializer_free, .mem_finalize sm])) := by
  refine ⟨makes_parser_run K src n so, ?_, ?_⟩
  · intro tr tr1 p h
    obtain ⟨-, -, offset, rfl⟩ := parser_run_returns K src n so tr tr1 p h
    refine ⟨offset, rfl, parser_calls_nodup _ _ _ _ _ _ _, ?_,
      fun c hc => (parser_calls_kind _ _ _ _ _ _ _ c hc).1.2⟩
    cases K.TARGET_HOST_x64 <;> simp [parser_calls]
  · intro po sm tr tr1 b h
    obtain ⟨p, tr0, hp, hcase⟩ := jerry_run_returns K src n po so sm tr tr1 b h
    obtain ⟨-, -, offset, rfl⟩ := parser_run_returns K src n so _ _ p hp
    rcases hcase with ⟨rfl, -, rfl⟩ | ⟨rfl, rfl, -⟩
    · exact ⟨offset, p, by simp⟩
    · exact ⟨offset, p, by simp⟩

/-- The order of calls of `parser_run` and of `jerry_run` at a concrete source
on the host build. -/
theorem parser_run_call_order_witness :
    (∃ offset,
      (parser_run (quiet true 8 [.str [97], .num 1] true example_files) [49] 1 false []).2 =
        [] ++ parser_calls true [49] 1 false { strings := [[97]], nums := [1] } offset 42 ∧
      (parser_calls true [49] 1 false { strings := [[97]], nums := [1] } offset 42).Nodup ∧
      (parser_calls true [49] 1 false { strings := [[97]], nums := [1] } offset 42).length =
        (if true = true then 13 else 12) ∧
      ∀ c ∈ parser_calls true [49] 1 false { strings := [[97]], nums := [1] } offset 42,
        c.is_interpreter = false) ∧
    (∃ offset p,
      (jerry_run (quiet true 8 [.str [97], .num 1] true example_files) [49] 1 false false
          true []).2 =
        [] ++ [.mem_init, .serializer_init false] ++
          parser_calls true [49] 1 false { strings := [[97]], nums := [1] } offset p ++
          (if false = true then []
           else [.init_int p, .run_int, .serializer_free, .mem_finalize true])) :=
  ⟨(parser_run_call_order (quiet true 8 [.str [97], .num 1] true example_files)
      [49] 1 false).2.1 [] _ 42 rfl,
    (parser_run_call_order (quiet true 8 [.str [97], .num 1] true example_files)
      [49] 1 false).2.2 false true [] _ true rfl⟩

/-- C5: a call of `jerry_run` with `is_parse_only = false` that returns has made
`mem_init` as its first call and `mem_finalize (is_show_mem_stats)` as its last,
each exactly once; every other call (`serializer_init`, the calls of
`parser_run`, `init_int`, `run_int`, `serializer_free`) lies strictly between
them; `run_int` has returned, giving the result, before `serializer_free` and
`mem_finalize` are called. -/
theorem jerry_run_brackets_pipeline (K : Components) (src : List Nat) (n : Nat) (so sm : Bool)
    (tr tr1 : List Call) (b : Bool) (h : Returns (jerry_run K src n false so sm) tr b tr1) :
    ∃ offset p,
      tr1 = tr ++ (.mem_init ::
        (.serializer_init so ::
          parser_calls K.TARGET_HOST_x64 src n so (discover (K.scan src n)) offset p ++
          [.init_int p, .run_int, .serializer_free]) ++ [.mem_finalize sm]) ∧
      (∀ c ∈ .serializer_init so ::
          parser_calls K.TARGET_HOST_x64 src n so (discover (K.scan src n)) offset p ++
          [.init_int p, .run_int, .serializer_free],
        c ≠ .mem_init ∧ (∀ f, c ≠ .mem_finalize f) ∧ c.is_pipeline = true) ∧
      b = K.run_result (tr ++ (.mem_init :: .serializer_init so ::
          parser_calls K.TARGET_HOST_x64 src n so (discover (K.scan src n)) offset p ++
          [.init_int p, .run_int])) := by
  obtain ⟨p, tr0, hp, hcase⟩ := jerry_run_returns K src n false so sm tr tr1 b h
  obtain ⟨-, -, offset, rfl⟩ := parser_run_returns K src n so _ _ p hp
  rcases hcase with ⟨hpo, -⟩ | ⟨-, rfl, rfl⟩
  · exact absurd hpo (by simp)
  · refine ⟨offset, p, by simp, ?_, by simp⟩
    intro c hc
    simp only [List.mem_cons, List.mem_append, List.mem_singleton, List.not_mem_nil,
      or_false] at hc
    rcases hc with (rfl | hc) | rfl | rfl | rfl
    · simp [Call.is_pipeline]
    · exact ⟨(parser_calls_kind _ _ _ _ _ _ _ c hc).2.1,
        (parser_calls_kind _ _ _ _ _ _ _ c hc).2.2.2, (parser_calls_kind _ _ _ _ _ _ _ c hc).1.1⟩
    · simp [Call.is_pipeline]
    · simp [Call.is_pipeline]
    · simp [Call.is_pipeline]

/-- A full run at a concrete source: `mem_init` first, `mem_finalize true`
last. -/
theorem jerry_run_brackets_pipeline_witness :
    ∃ offset p,
      (jerry_run (quiet false 8 [.str [97], .num 1] true example_files) [49] 1 false false
          true []).2 =
        [] ++ (.mem_init ::
          (.serializer_init false ::
            parser_calls false [49] 1 false { strings := [[97]], nums := [1] } offset p ++
            [.init_int p, .run_int, .serializer_free]) ++ [.mem_finalize true]) ∧
      (∀ c ∈ .serializer_init false ::
            parser_calls false [49] 1 false { strings := [[97]], nums := [1] } offset p ++
            [.init_int p, .run_int, .serializer_free],
        c ≠ .mem_init ∧ (∀ f, c ≠ .mem_finalize f) ∧ c.is_pipeline = true) ∧
      true = (quiet false 8 [.str [97], .num 1] true example_files).run_result
        ([] ++ (.mem_init :: .serializer_init false ::
          parser_calls false [49] 1 false { strings := [[97]], nums := [1] } offset p ++
          [.init_int p, .run_int])) :=
  jerry_run_brackets_pipeline (quiet false 8 [.str [97], .num 1] true example_files)
    [49] 1 false true [] _ true rfl

/-- C6: for a source whose pass 1 yields more than `MAX_STRINGS` distinct
string literals or more than `MAX_NUMS` distinct numeric literals, `parser_run`
does not return; the only calls it makes are `lexer_init` and
`lexer_run_first_pass`, so `serializer_dump_strings` and `parser_parse_program`
are not called, no table is handed to the driver's arrays and nothing is
dumped; and when those two lexer calls are not ended otherwise, the run ends
with LiteralLimitExceeded. -/
theorem parser_run_literal_limit (K : Components) (src : List Nat) (n : Nat) (so : Bool)
    (tr : List Call)
    (h : MAX_STRINGS < (discover (K.scan src n)).strings.length ∨
      MAX_NUMS < (discover (K.scan src n)).nums.length) :
    (∀ p tr1, ¬ Returns (parser_run K src n so) tr p tr1) ∧
    Adds (fun c => c = .lexer_init src n so ∨ c = .lexer_run_first_pass)
      (parser_run K src n so) tr ∧
    (K.stops (tr ++ [.lexer_init src n so]) = none →
      K.stops (tr ++ [.lexer_init src n so, .lexer_run_first_pass]) = none →
      Exits (parser_run K src n so) tr .LiteralLimitExceeded
        (tr ++ [.lexer_init src n so, .lexer_run_first_pass])) := by
  refine ⟨?_, ?_, ?_⟩
  · intro p tr1 hr
    obtain ⟨hs, hn, -⟩ := parser_run_returns K src n so tr tr1 p hr
    rcases h with h | h
    · exact absurd hs (not_le.2 h)
    · exact absurd hn (not_le.2 h)
  · unfold parser_run
    refine adds_bind (adds_call K (Or.inl rfl) _) fun _ _ _ => ?_
    refine adds_bind (adds_lexer_run_first_pass K src n (Or.inr rfl) _) fun t _ ht => ?_
    obtain ⟨-, -, rfl, hs, hn⟩ := (returns_lexer_run_first_pass K src n _ _ _).1 ht
    rcases h with h | h
    · exact absurd hs (not_le.2 h)
    · exact absurd hn (not_le.2 h)
  · intro h1 h2
    unfold parser_run
    rw [exits_bind]
    refine Or.inr ⟨(), _, (returns_call K _ _ _ _).2 ⟨h1, rfl⟩, ?_⟩
    rw [exits_bind]
    left
    unfold lexer_run_first_pass
    rw [exits_bind]
    refine Or.inr ⟨(), _, (returns_call K _ _ _ _).2 ⟨by simpa using h2, rfl⟩, ?_⟩
    dsimp only
    rw [if_pos h, exits_fail]
    exact ⟨rfl, by simp⟩

/-- A source with 26 distinct numeric literals: `parser_run` ends with
LiteralLimitExceeded after `lexer_init` and `lexer_run_first_pass`. -/
theorem parser_run_literal_limit_witness :
    (MAX_STRINGS < (discover ((List.range 26).map Literal.num)).strings.length ∨
      MAX_NUMS < (discover ((List.range 26).map Literal.num)).nums.length) ∧
    Exits (parser_run (quiet true 8 ((List.range 26).map Literal.num) true example_files)
        [49] 1 false) [] .LiteralLimitExceeded
      ([] ++ [.lexer_init [49] 1 false, .lexer_run_first_pass]) :=
  ⟨by decide,
    (parser_run_literal_limit (quiet true 8 ((List.range 26).map Literal.num) true example_files)
      [49] 1 false [] (by decide)).2.2 rfl rfl⟩

/-! ## The host build: `read_sources` and `main` -/

/-- C7 (as stated, refuted): with a buffer of 8 bytes and the files `big` (8
bytes, readable) and `nofile` (cannot be opened), in this order, some file
cannot be opened, yet `read_sources` does not terminate through
`jerry_exit (ERR_IO)`: the capacity check of `big` comes first and the process
ends with `ERR_MEMORY`. -/
theorem read_sources_unopenable_file_counterexample :
    (∃ name ∈ ["big", "nofile"],
      ((quiet true 8 [] true example_files).files name).opens = false) ∧
    Exits (read_sources (quiet true 8 [] true example_files) ["big", "nofile"]) []
      jerry_status_t.ERR_MEMORY
      [.fopen "big", .fseek "big", .ftell "big", .rewind "big",
        .jerry_exit jerry_status_t.ERR_MEMORY] ∧
    ¬ ∃ tr1, Exits (read_sources (quiet true 8 [] true example_files) ["big", "nofile"]) []
      jerry_status_t.ERR_IO tr1 := by
  refine ⟨⟨"nofile", by simp, rfl⟩, rfl, ?_⟩
  rintro ⟨tr1, h⟩
  have h2 : Exits (read_sources (quiet true 8 [] true example_files) ["big", "nofile"]) []
      jerry_status_t.ERR_MEMORY
      [.fopen "big", .fseek "big", .ftell "big", .rewind "big",
        .jerry_exit jerry_status_t.ERR_MEMORY] := rfl
  unfold Exits at h h2
  rw [h2] at h
  simp at h

/-- C7 (amended): `read_sources` examines the files in argument order and
stops at the first file that fails a check, the checks of one file being made
in the order open, seek, sign of the length, capacity, read.  When every file
before `name` has passed (the loop over them returns, the tail then standing at
the sum of their sizes): if `name` cannot be opened, cannot be seeked or
reports a negative length, `read_sources` terminates through
`jerry_exit (ERR_IO)`; if it passes these and the accumulated size plus its
size reaches or exceeds the capacity, through `jerry_exit (ERR_MEMORY)`; if its
size fits and it yields fewer bytes than its length, through
`jerry_exit (ERR_IO)`.  And whenever `read_sources` ends the process, `main`
ends with the same status having made no call into the pipeline: `jerry_run`
is not invoked. -/
theorem read_sources_first_failing_check (K : Components) :
    (∀ pre name post tr st1 tr1,
      Returns (read_sources_loop K pre (source_buffer_init K)) tr st1 tr1 →
      st1.source_buffer_tail = (pre.map (file_size K)).sum ∧
      (((K.files name).opens = false ∨ (K.files name).fseek_status ≠ 0 ∨
          (K.files name).ftell < 0) →
        ∃ tr2, Exits (read_sources K (pre ++ name :: post)) tr jerry_status_t.ERR_IO
          (tr2 ++ [.jerry_exit jerry_status_t.ERR_IO])) ∧
      ((K.files name).opens = true → (K.files name).fseek_status = 0 →
          0 ≤ (K.files name).ftell →
          K.JERRY_SOURCE_BUFFER_SIZE ≤ (pre.map (file_size K)).sum + file_size K name →
        ∃ tr2, Exits (read_sources K (pre ++ name :: post)) tr jerry_status_t.ERR_MEMORY
          (tr2 ++ [.jerry_exit jerry_status_t.ERR_MEMORY])) ∧
      ((pre.map (file_size K)).sum + file_size K name < K.JERRY_SOURCE_BUFFER_SIZE →
          (K.files name).content.length < file_size K name →
        ∃ tr2, Exits (read_sources K (pre ++ name :: post)) tr jerry_status_t.ERR_IO
          (tr2 ++ [.jerry_exit jerry_status_t.ERR_IO]))) ∧
    (∀ argv tr a tr_a e tr2,
      K.stops (tr ++ [.jrt_set_mem_limits K.data_limit K.stack_limit]) = none →
      Returns (main_args (argv.drop 1) main_locals)
        (tr ++ [.jrt_set_mem_limits K.data_limit K.stack_limit]) a tr_a →
      a.file_names ≠ [] →
      Exits (read_sources K a.file_names) tr_a e tr2 →
      Exits (main K argv) tr e tr2 ∧ ∀ c ∈ tr2.drop tr.length, c.is_pipeline = false) := by
  constructor
  · intro pre name post tr st1 tr1 hpre
    obtain ⟨htail, -, -, -, -⟩ := read_sources_loop_returns K pre _ st1 tr tr1 hpre
    have htail' : st1.source_buffer_tail = (pre.map (file_size K)).sum := by
      rw [htail]
      simp [source_buffer_init]
    have key : ∀ e, (∃ t, Exits (read_source_file K st1 name) tr1 e t) →
        ∃ tr2, Exits (read_sources K (pre ++ name :: post)) tr e (tr2 ++ [.jerry_exit e]) := by
      rintro e ⟨t, ht⟩
      obtain ⟨t0, rfl⟩ := exits_read_source_file_last K st1 name tr1 t e ht
      refine ⟨t0, (exits_read_sources K _ tr _ e).2 (Or.inl ?_)⟩
      refine (exits_read_sources_loop_append K pre (name :: post) _ tr _ e).2
        (Or.inr ⟨st1, tr1, hpre, ?_⟩)
      exact (exits_read_sources_loop_cons K name post st1 tr1 _ e).2 (Or.inl ht)
    refine ⟨htail', ?_, ?_, ?_⟩
    · intro h
      apply key
      refine (exits_read_source_file K st1 name tr1 _).2 (Or.inl ⟨rfl, ?_⟩)
      rcases h with h | h | h
      · exact Or.inl h
      · exact Or.inr (Or.inl h)
      · exact Or.inr (Or.inr (Or.inl h))
    · intro h1 h2 h3 h4
      apply key
      exact (exits_read_source_file K st1 name tr1 _).2
        (Or.inr ⟨rfl, h1, h2, h3, by rw [htail']; exact h4⟩)
    · intro h1 h2
      apply key
      exact (exits_read_source_file K st1 name tr1 _).2
        (Or.inl ⟨rfl, Or.inr (Or.inr (Or.inr ⟨by rw [htail']; exact h1, h2⟩))⟩)
  · intro argv tr a tr_a e tr2 hj ha hne hex
    constructor
    · unfold main
      rw [exits_bind]
      refine Or.inr ⟨(), _, (returns_call K _ _ _ _).2 ⟨hj, rfl⟩, ?_⟩
      rw [exits_bind]
      refine Or.inr ⟨a, tr_a, ha, ?_⟩
      dsimp only
      rw [if_neg (by simpa using hne), exits_bind]
      exact Or.inl hex
    · obtain ⟨new1, rfl, hn1⟩ := adds_of_returns (adds_main_args _ _ _) ha
      obtain ⟨new2, rfl, hn2⟩ := adds_of_exits (adds_read_sources K _ _) hex
      intro c hc
      rw [List.append_assoc, List.append_assoc, List.drop_left] at hc
      simp only [List.mem_append, List.mem_singleton] at hc
      rcases hc with rfl | hc | hc
      · rfl
      · exact hn1 c hc
      · exact (hn2 c hc).1

/-- The three kinds of first failing check, and `main`, at concrete files with
a buffer of 8 bytes: after the readable `a` (2 bytes), `nofile` gives
`ERR_IO`, `big` (8 bytes) gives `ERR_MEMORY`, `short` (reports 4 bytes,
delivers 2) gives `ERR_IO`; `main` on `a nofile` ends with `ERR_IO` before any
pipeline call. -/
theorem read_sources_first_failing_check_witness :
    (∃ tr2, Exits (read_sources (quiet true 8 [] true example_files)
        (["a"] ++ "nofile" :: ["b"])) [] jerry_status_t.ERR_IO
        (tr2 ++ [.jerry_exit jerry_status_t.ERR_IO])) ∧
    (∃ tr2, Exits (read_sources (quiet true 8 [] true example_files)
        (["a"] ++ "big" :: ["b"])) [] jerry_status_t.ERR_MEMORY
        (tr2 ++ [.jerry_exit jerry_status_t.ERR_MEMORY])) ∧
    (∃ tr2, Exits (read_sources (quiet true 8 [] true example_files)
        (["a"] ++ "short" :: ["b"])) [] jerry_status_t.ERR_IO
        (tr2 ++ [.jerry_exit jerry_status_t.ERR_IO])) ∧
    (Exits (main (quiet true 8 [] true example_files) ["jerry", "a", "nofile"]) []
        jerry_status_t.ERR_IO
        ([.jrt_set_mem_limits 0 0] ++ file_calls (quiet true 8 [] true example_files) "a" ++
          [.fopen "nofile", .jerry_exit jerry_status_t.ERR_IO]) ∧
      ∀ c ∈ (([.jrt_set_mem_limits 0 0] ++
          file_calls (quiet true 8 [] true example_files) "a" ++
          [.fopen "nofile", .jerry_exit jerry_status_t.ERR_IO] : List Call)).drop
            ([] : List Call).length,
        c.is_pipeline = false) :=
  ⟨(((read_sources_first_failing_check (quiet true 8 [] true example_files)).1
      ["a"] "nofile" ["b"] [] _ _ rfl).2.1) (Or.inl rfl),
    (((read_sources_first_failing_check (quiet true 8 [] true example_files)).1
      ["a"] "big" ["b"] [] _ _ rfl).2.2.1) rfl rfl (by decide) (by decide),
    (((read_sources_first_failing_check (quiet true 8 [] true example_files)).1
      ["a"] "short" ["b"] [] _ _ rfl).2.2.2) (by decide) (by decide),
    (read_sources_first_failing_check (quiet true 8 [] true example_files)).2
      ["jerry", "a", "nofile"] [] _ _ _ _ rfl rfl (by decide) rfl⟩

/-- C8 (as the code behaves): for the argument vector `jerry -v`, in which no
argument names a source file, `main` prints the build information and then
also stores `-v` as a file name, because the test for `-v` is not chained to
the `else if` tests that follow it; `files_counter` is 1, `main` does not call
`jerry_exit (ERR_NO_FILES)` and goes on to `read_sources`, which tries to open
a file called `-v`. -/
theorem main_version_option_taken_as_file :
    Returns (main_args (["jerry", "-v"].drop 1) main_locals) []
      { parse_only := false, show_opcodes := false, print_mem_stats := false,
        file_names := ["-v"] }
      [.printf "Build date: \t%s\n", .printf "Commit hash:\t%s\n",
        .printf "Branch name:\t%s\n", .printf "\n"] ∧
    Exits (main (quiet true 8 [] true example_files) ["jerry", "-v"]) []
      jerry_status_t.ERR_IO
      [.jrt_set_mem_limits 0 0, .printf "Build date: \t%s\n", .printf "Commit hash:\t%s\n",
        .printf "Branch name:\t%s\n", .printf "\n", .fopen "-v",
        .jerry_exit jerry_status_t.ERR_IO] ∧
    (¬ ∃ tr1, Exits (main (quiet true 8 [] true example_files) ["jerry", "-v"]) []
      jerry_status_t.ERR_NO_FILES tr1) ∧
    Exits (main (quiet true 8 [] true example_files) ["jerry", "--parse-only"]) []
      jerry_status_t.ERR_NO_FILES
      [.jrt_set_mem_limits 0 0, .jerry_exit jerry_status_t.ERR_NO_FILES] := by
  refine ⟨rfl, rfl, ?_, rfl⟩
  rintro ⟨tr1, h⟩
  have h2 : Exits (main (quiet true 8 [] true example_files) ["jerry", "-v"]) []
      jerry_status_t.ERR_IO
      [.jrt_set_mem_limits 0 0, .printf "Build date: \t%s\n", .printf "Commit hash:\t%s\n",
        .printf "Branch name:\t%s\n", .printf "\n", .fopen "-v",
        .jerry_exit jerry_status_t.ERR_IO] := rfl
  unfold Exits at h h2
  rw [h2] at h
  simp at h

/-- C9 (as the code behaves): with the readable files `a` (bytes 49, 43) and
`b` (byte 50) and a buffer of 8 bytes, `read_sources` returns the size 3, the
sum of the sizes, but the first 3 bytes of the buffer are 50, 43, 0 and not the
concatenation 49, 43, 50: every `__fread` stores at `source_buffer`, not at
`source_buffer_tail`, so `b` overwrites the start of `a`. -/
theorem read_sources_overwrites_buffer_start :
    Returns (read_sources (quiet true 8 [] true example_files) ["a", "b"]) []
      ([50, 43, 0, 0, 0, 0, 0, 0], 3)
      (file_calls (quiet true 8 [] true example_files) "a" ++
        file_calls (quiet true 8 [] true example_files) "b") ∧
    ([50, 43, 0, 0, 0, 0, 0, 0] : List Nat).take 3 ≠
      (example_files "a").content ++ (example_files "b").content ∧
    (example_files "a").content ++ (example_files "b").content = [49, 43, 50] := by
  refine ⟨rfl, by decide, rfl⟩

/-- C10: with a `source_buffer` of positive capacity, the final `JERRY_ASSERT`
of `read_sources` never fails; and on every list of files on which
`read_sources` returns, the running total of the file sizes after each loop
iteration (the tail after the first `k` files, for every `k`) is strictly below
the capacity, the buffer keeps its capacity, every file's length is below the
capacity, every `__fread` is asked for fewer bytes than the buffer holds, and
the size returned is the sum of the sizes, below the capacity. -/
theorem read_sources_stays_within_buffer (K : Components)
    (hcap : 0 < K.JERRY_SOURCE_BUFFER_SIZE) (names : List String) (tr : List Call) :
    (∀ tr1, ¬ Exits (read_sources K names) tr jerry_status_t.ERR_ASSERT tr1) ∧
    (∀ buf size tr1, Returns (read_sources K names) tr (buf, size) tr1 →
      (∀ k, k ≤ names.length → ∃ st trk,
        Returns (read_sources_loop K (names.take k) (source_buffer_init K)) tr st trk ∧
        st.source_buffer_tail = ((names.take k).map (file_size K)).sum ∧
        st.source_buffer_tail < K.JERRY_SOURCE_BUFFER_SIZE ∧
        st.source_buffer.length = K.JERRY_SOURCE_BUFFER_SIZE) ∧
      (∀ name ∈ names, file_size K name < K.JERRY_SOURCE_BUFFER_SIZE) ∧
      (∀ name cnt, Call.fread name cnt ∈ tr1.drop tr.length →
        cnt < K.JERRY_SOURCE_BUFFER_SIZE) ∧
      size = (names.map (file_size K)).sum ∧ size < K.JERRY_SOURCE_BUFFER_SIZE ∧
      buf.length = K.JERRY_SOURCE_BUFFER_SIZE) := by
  have h0 : (source_buffer_init K).source_buffer_tail = 0 := rfl
  have hlen0 : (source_buffer_init K).source_buffer.length = K.JERRY_SOURCE_BUFFER_SIZE := by
    simp [source_buffer_init]
  constructor
  · intro tr1 h
    rcases (exits_read_sources K names tr tr1 _).1 h with h | ⟨st, hl, hnlt, -⟩
    · rcases (exits_read_sources_loop_last K names _ tr tr1 _ h).2 with h | h <;> cases h
    · obtain ⟨-, i2, -, -, -⟩ := read_sources_loop_returns K names _ st tr tr1 hl
      exact hnlt (i2 (by rw [h0]; exact hcap))
  · intro buf size tr1 h
    obtain ⟨st, hl, hlt, hr⟩ := (returns_read_sources K names tr tr1 _).1 h
    obtain ⟨rfl, rfl⟩ := Prod.mk.inj hr
    obtain ⟨i1, -, i3, i4, -⟩ := read_sources_loop_returns K names _ st tr tr1 hl
    rw [h0, Nat.zero_add] at i1
    refine ⟨?_, fun name hn => (i4 name hn).1, ?_, i1, hlt, i3 hlen0⟩
    · intro k _
      have hsplit := hl
      rw [← List.take_append_drop k names] at hsplit
      obtain ⟨s1, t1, hpre, hpost⟩ :=
        (returns_read_sources_loop_append K _ _ _ _ _ _).1 hsplit
      obtain ⟨j1, -, j3, -, -⟩ := read_sources_loop_returns K _ _ s1 tr t1 hpre
      obtain ⟨l1, -, -, -, -⟩ := read_sources_loop_returns K _ _ st t1 tr1 hpost
      rw [h0, Nat.zero_add] at j1
      exact ⟨s1, t1, hpre, j1, by omega, j3 hlen0⟩
    · intro name cnt hmem
      obtain ⟨new, rfl, hnew⟩ := adds_of_returns (adds_read_sources K names tr) h
      rw [List.drop_left] at hmem
      exact (hnew _ hmem).2 name cnt rfl

/-- Two readable files of 2 and 1 bytes in a buffer of 8 bytes: the running
totals 0, 2 and 3 are below 8. -/
theorem read_sources_stays_within_buffer_witness :
    0 < (quiet true 8 [] true example_files).JERRY_SOURCE_BUFFER_SIZE ∧
    Returns (read_sources (quiet true 8 [] true example_files) ["a", "b"]) []
      ([50, 43, 0, 0, 0, 0, 0, 0], 3)
      (file_calls (quiet true 8 [] true example_files) "a" ++
        file_calls (quiet true 8 [] true example_files) "b") ∧
    (∀ k, k ≤ ["a", "b"].length → ∃ st trk,
      Returns (read_sources_loop (quiet true 8 [] true example_files) (["a", "b"].take k)
        (source_buffer_init (quiet true 8 [] true example_files))) [] st trk ∧
      st.source_buffer_tail =
        ((["a", "b"].take k).map (file_size (quiet true 8 [] true example_files))).sum ∧
      st.source_buffer_tail < (quiet true 8 [] true example_files).JERRY_SOURCE_BUFFER_SIZE ∧
      st.source_buffer.length = (quiet true 8 [] true example_files).JERRY_SOURCE_BUFFER_SIZE) :=
  ⟨by decide, rfl,
    ((read_sources_stays_within_buffer (quiet true 8 [] true example_files) (by decide)
      ["a", "b"] []).2 _ _ _ rfl).1⟩

end Jerry
